import Mathlib

/-!
Verification development for the VexeraDubbing application bot.

The repository has two independent implementations of the same service:

* `app.py` / `main.py` (the Flask variant): applications are kept in three
  in-process dictionaries `PENDING_APPLICATIONS`, `APPROVED_APPLICATIONS`,
  `REJECTED_APPLICATIONS` keyed by `str(application_counter)`; the
  `/submit` endpoint validates four required fields and creates a pending
  record; `button_handler` implements approve / reject / details / delete.

* `bot.py` (the relational variant): applications live in an
  `applications` table with a single `status` column, notification copies
  are tracked in a `messages` table keyed by `(application_id, chat_id)`,
  and IDs are minted as `APP-%04d` from a `counters` row.

Both variants are embedded below as pure Lean state-transition functions,
and the spec's claims are settled as theorems about those functions.
Chat-transport rendering (exact Russian/Markdown message strings) is
abstracted into the constructors of `MsgContent`; everything else follows
the Python line by line.
-/

namespace VexeraDubbing

/-! ## Decimal representation of counters

`app.py` mints IDs with `str(application_counter)` and `bot.py` with
`f"APP-{counter:04d}"`.  We embed Python's `str` on naturals as `pyStr`
(least-significant-digit recursion with explicit fuel so that it reduces
by `decide`), and prove it injective via the decoding function
`decodeDigits`, so that distinctness of minted IDs can be proved.
-/

/-- Character for a single decimal digit, as in Python's `str`. -/
def digitChar (d : Nat) : Char := Char.ofNat (48 + d)

/-- Least-significant-first decimal digits of `n`, with fuel `f`
(`f ≥ n` suffices). -/
def digitsRevAux : Nat → Nat → List Nat
  | _, 0 => []
  | 0, _ + 1 => []
  | f + 1, n + 1 => (n + 1) % 10 :: digitsRevAux f ((n + 1) / 10)

/-- Least-significant-first decimal digits of `n`. -/
def digitsRev (n : Nat) : List Nat := digitsRevAux n n

/-- Embedding of Python's `str` on non-negative integers. -/
def pyStr (n : Nat) : String :=
  if n = 0 then "0" else String.mk ((digitsRev n).reverse.map digitChar)

/-- Decode a most-significant-first list of digit characters back to a
natural number. -/
def decodeDigits (l : List Char) : Nat :=
  l.foldl (fun a c => a * 10 + (c.toNat - 48)) 0


/-! ## The relational variant's ID format

`bot.py`, `get_next_application_id`: `f"APP-{counter:04d}"` — the counter
zero-padded on the left to at least four characters, behind the fixed
prefix `APP-`. -/

/-- Zero-pad a string on the left to width 4, as `%04d` does to the
decimal representation. -/
def pad4 (s : String) : String :=
  String.mk (List.replicate (4 - s.length) '0') ++ s

/-- The application-ID format of `bot.py`. -/
def appIdFmt (n : Nat) : String := "APP-" ++ pad4 (pyStr n)


/-! ## Association-list embedding of Python dictionaries

The Flask variant stores applications in plain `dict`s.  We embed a dict
as an association list with the usual dict semantics: assignment replaces
the entry in place if the key exists and appends otherwise; `del` removes
the entry; lookup returns the first (under the key-uniqueness invariant,
only) match. -/

/-- Dict lookup: `d[k]` / `d.get(k)`. -/
def dictGet {α : Type} : List (String × α) → String → Option α
  | [], _ => none
  | (k, v) :: rest, key => if k = key then some v else dictGet rest key

/-- Dict assignment: `d[k] = v`. -/
def dictSet {α : Type} : List (String × α) → String → α → List (String × α)
  | [], key, v => [(key, v)]
  | (k, w) :: rest, key, v =>
    if k = key then (key, v) :: rest else (k, w) :: dictSet rest key v

/-- Dict deletion: `del d[k]`. -/
def dictDel {α : Type} : List (String × α) → String → List (String × α)
  | [], _ => []
  | (k, w) :: rest, key =>
    if k = key then rest else (k, w) :: dictDel rest key

/-- Keys of the dict are pairwise distinct (true of every Python dict). -/
def KeysNodup {α : Type} (d : List (String × α)) : Prop :=
  d.Pairwise (fun p q => p.1 ≠ q.1)


/-! ## The Flask variant (`app.py` / `main.py`)

The two files are the same program modulo async keywords and the
PTB-v13/v20 API; the store logic embedded here is identical in both. -/

namespace Flask

/-- A JSON value as delivered by `request.json`.  Only the shapes relevant
to the claims are distinguished; every non-string constructor behaves the
same way under `.strip()` (it raises `AttributeError`). -/
inductive JValue where
  | jstr (s : String)
  | jnum (n : Int)
  | jbool (b : Bool)
  | jnull
  deriving DecidableEq, Repr

/-- A parsed JSON object body. -/
abbrev JObj := List (String × JValue)

/-- Embedding of Python's `str.strip()`: drop leading and trailing
whitespace.  (Defined on the character list so that it evaluates inside
the kernel.) -/
def pyStrip (s : String) : String :=
  String.mk (((s.data.dropWhile Char.isWhitespace).reverse.dropWhile Char.isWhitespace).reverse)

/-- One entry of `PENDING_APPLICATIONS` / `APPROVED_APPLICATIONS` /
`REJECTED_APPLICATIONS`.  Dict keys that are absent until first
assignment (`approved`, `rejected`, `processed_by`, `processed_time`)
are modelled as `Bool` (initially `false`) and `Option` (initially
`none`). -/
structure FApp where
  id : String
  name : String
  contact : String
  role : String
  experience : JValue
  samples : JValue
  motivation : String
  timestamp : Nat
  approvedFlag : Bool
  rejectedFlag : Bool
  processed_by : Option String
  processed_time : Option Nat
  deriving DecidableEq, Repr

/-- The module-level mutable state of `app.py`:
`PENDING_APPLICATIONS`, `APPROVED_APPLICATIONS`, `REJECTED_APPLICATIONS`
and `application_counter`. -/
structure FState where
  pending : List (String × FApp)
  approved : List (String × FApp)
  rejected : List (String × FApp)
  counter : Nat
  deriving DecidableEq, Repr

/-- Fresh process state: empty buckets, `application_counter = 1`. -/
def initState : FState := ⟨[], [], [], 1⟩

/-- The required-field list of `webhook_handler`. -/
def required_fields : List String := ["name", "contact", "role", "motivation"]

/-- Result of the validation loop
`for field in required_fields: if field not in data or not data[field].strip(): ...`.
`bad400 f` is the early `return jsonify(...), 400` for field `f`;
`exn` is the `AttributeError` raised by `.strip()` on a non-string value,
which the surrounding `try` turns into the 500 response. -/
inductive Validation where
  | ok
  | bad400 (field : String)
  | exn
  deriving DecidableEq, Repr

/-- The validation loop over a list of field names, in order. -/
def validateFields (data : JObj) : List String → Validation
  | [] => .ok
  | f :: rest =>
    match dictGet data f with
    | none => .bad400 f
    | some (.jstr s) => if pyStrip s = "" then .bad400 f else validateFields data rest
    | some _ => .exn

/-- String content of a JSON value; only applied on the success path,
where validation has already guaranteed the value is a string. -/
def asStr : JValue → String
  | .jstr s => s
  | _ => ""

/-- Executable test: every required field that is present in the body
carries a string value (so `.strip()` cannot raise). -/
def requiredAllStrings (data : JObj) : Bool :=
  required_fields.all fun f =>
    match dictGet data f with
    | some (.jstr _) => true
    | some _ => false
    | none => true

/-- Executable test: some required field is missing from the body or has
a blank string value. -/
def someRequiredMissingOrBlank (data : JObj) : Bool :=
  required_fields.any fun f =>
    match dictGet data f with
    | none => true
    | some (.jstr s) => pyStrip s == ""
    | some _ => false

/-- Executable test: all four required fields are present with non-blank
string values. -/
def allRequiredPresentNonblank (data : JObj) : Bool :=
  required_fields.all fun f =>
    match dictGet data f with
    | some (.jstr s) => !(pyStrip s == "")
    | _ => false

/-- The HTTP response of `/submit`:
200 with `{status, message, application_id}`, 400 on a missing/blank
required field, 500 from the broad exception handler. -/
inductive HttpResp where
  | ok200 (application_id : String)
  | err400 (field : String)
  | err500
  deriving DecidableEq, Repr

/-- The application record built on the validated path of
`webhook_handler` (the `application = {...}` dict literal). -/
def mkApplication (data : JObj) (app_id : String) (now : Nat) : FApp :=
  { id := app_id
    name := asStr ((dictGet data "name").getD (.jstr ""))
    contact := asStr ((dictGet data "contact").getD (.jstr ""))
    role := asStr ((dictGet data "role").getD (.jstr ""))
    experience := (dictGet data "experience").getD (.jstr "Не указан")
    samples := (dictGet data "samples").getD (.jstr "Не указаны")
    motivation := asStr ((dictGet data "motivation").getD (.jstr ""))
    timestamp := now
    approvedFlag := false
    rejectedFlag := false
    processed_by := none
    processed_time := none }

/-- `webhook_handler` (`app.py` lines 327–389): validate the four
required fields, then create the record keyed by `str(application_counter)`
in `PENDING_APPLICATIONS`, increment the counter and answer 200.
The fan-out sends to admins do not touch the store and each is wrapped in
its own `try`, so they are omitted here. -/
def webhook_handler (s : FState) (data : JObj) (now : Nat) : FState × HttpResp :=
  match validateFields data required_fields with
  | .bad400 f => (s, .err400 f)
  | .exn => (s, .err500)
  | .ok =>
    let app_id := pyStr s.counter
    let application : FApp := mkApplication data app_id now
    ({ s with counter := s.counter + 1,
              pending := dictSet s.pending app_id application },
     .ok200 app_id)

/-- The four callback actions of `application_keyboard`. -/
inductive FAction where
  | approve
  | reject
  | details
  | delete
  deriving DecidableEq, Repr

/-- The user-visible outcome of `button_handler`. -/
inductive FResult where
  | noPermission
  | notFound
  | approvedOk
  | rejectedOk
  | detailsShown
  | deletedOk
  deriving DecidableEq, Repr

/-- Which bucket an application was found in (`source` in the handler). -/
inductive Bucket where
  | pending
  | approved
  | rejected
  deriving DecidableEq, Repr

/-- The lookup cascade at the top of `button_handler`
(pending, then approved, then rejected). -/
def findApplication (s : FState) (app_id : String) : Option (FApp × Bucket) :=
  match dictGet s.pending app_id with
  | some a => some (a, .pending)
  | none =>
    match dictGet s.approved app_id with
    | some a => some (a, .approved)
    | none =>
      match dictGet s.rejected app_id with
      | some a => some (a, .rejected)
      | none => none

/-- `button_handler` (`app.py` lines 212–312).  `admins` is `ADMIN_IDS`,
`actor` the pressing user's id, `actorName` their first name, `now` the
`time.time()` value. -/
def button_handler (admins : List Int) (s : FState) (actor : Int) (actorName : String)
    (action : FAction) (app_id : String) (now : Nat) : FState × FResult :=
  if actor ∈ admins then
    match findApplication s app_id with
    | none => (s, .notFound)
    | some (application, source) =>
      match action with
      | .approve =>
        let application :=
          { application with approvedFlag := true,
                             processed_by := some actorName,
                             processed_time := some now }
        let pending' := if source = .pending then dictDel s.pending app_id else s.pending
        let rejected' := if source = .rejected then dictDel s.rejected app_id else s.rejected
        ({ s with pending := pending',
                  rejected := rejected',
                  approved := dictSet s.approved app_id application },
         .approvedOk)
      | .reject =>
        let application :=
          { application with rejectedFlag := true,
                             processed_by := some actorName,
                             processed_time := some now }
        let pending' := if source = .pending then dictDel s.pending app_id else s.pending
        let approved' := if source = .approved then dictDel s.approved app_id else s.approved
        ({ s with pending := pending',
                  approved := approved',
                  rejected := dictSet s.rejected app_id application },
         .rejectedOk)
      | .details => (s, .detailsShown)
      | .delete =>
        match source with
        | .pending => ({ s with pending := dictDel s.pending app_id }, .deletedOk)
        | .approved => ({ s with approved := dictDel s.approved app_id }, .deletedOk)
        | .rejected => ({ s with rejected := dictDel s.rejected app_id }, .deletedOk)
  else (s, .noPermission)

end Flask

/-! ## The relational variant (`bot.py`)

Applications live in the `applications` table (one `status` column),
notification copies in the `messages` table with primary key
`(application_id, chat_id)`, and the counter in a `counters` row.
Delivered Telegram messages are modelled explicitly (`TgMsg`) so that
the in-place edits performed on a status change are observable; the
exact rendered strings are abstracted into `MsgContent` constructors. -/

namespace BotDB

/-- The `status` column (`CHECK (status IN (...))` in `init_db`). -/
inductive BStatus where
  | received
  | pending
  | approved
  | rejected
  deriving DecidableEq, Repr

/-- One row of the `applications` table. -/
structure BApp where
  id : String
  status : BStatus
  application_data : String
  telegram_username : String
  created_at : Nat
  updated_at : Nat
  deriving DecidableEq, Repr

/-- One row of the `messages` table (a NotificationRef). -/
structure MsgRow where
  application_id : String
  chat_id : Int
  message_id : Nat
  deriving DecidableEq, Repr

/-- Rendered message content, abstracting the literal Russian/Markdown
strings built by the handlers. -/
inductive MsgContent where
  | newApplication (app_id : String)
  | applicationView (app_id : String) (data : String)
  | approvedNotice (app_id : String) (data : String)
  | rejectedNotice (app_id : String) (data : String)
  | reviewCard (app_id : String) (data : String)
  | actionConfirmation (app_id : String) (st : BStatus)
  | notFoundNotice
  | deniedNotice
  deriving DecidableEq, Repr

/-- A message actually delivered to a Telegram chat (external world). -/
structure TgMsg where
  chat_id : Int
  message_id : Nat
  content : MsgContent
  deriving DecidableEq, Repr

/-- Where a queued application came from. -/
inductive Source where
  | website
  | telegramSrc
  deriving DecidableEq, Repr

/-- The whole system state: the three tables, the in-process
`app_queue`, and the delivered Telegram messages (with a fresh
message-id supply standing in for Telegram's allocator). -/
structure BState where
  applications : List BApp
  messages : List MsgRow
  counter : Nat
  queue : List (String × Source)
  chats : List TgMsg
  nextMsgId : Nat
  deriving DecidableEq, Repr

/-- Fresh system state: empty tables, counter row initialised to 0. -/
def initB : BState := ⟨[], [], 0, [], [], 0⟩

/-- `get_next_application_id`: `UPDATE counters SET value = value + 1 ...
RETURNING value`, then `f"APP-{counter:04d}"`. -/
def get_next_application_id (c : Nat) : Nat × String :=
  (c + 1, appIdFmt (c + 1))

/-- `save_application`: plain `INSERT` into `applications`. -/
def save_application (s : BState) (app_id : String) (st : BStatus)
    (data telegram : String) (now : Nat) : BState :=
  { s with applications := s.applications ++ [⟨app_id, st, data, telegram, now, now⟩] }

/-- `save_message`: `INSERT ... ON CONFLICT (application_id, chat_id)
DO UPDATE SET message_id = $3`. -/
def save_message : List MsgRow → String → Int → Nat → List MsgRow
  | [], app_id, chat, mid => [⟨app_id, chat, mid⟩]
  | r :: rest, app_id, chat, mid =>
    if r.application_id = app_id ∧ r.chat_id = chat then
      ⟨app_id, chat, mid⟩ :: rest
    else
      r :: save_message rest app_id chat mid

/-- `get_application`: `SELECT * FROM applications WHERE id = $1`. -/
def get_application (s : BState) (app_id : String) : Option BApp :=
  s.applications.find? (fun a => a.id == app_id)

/-- `get_application_messages`: all `messages` rows of one application. -/
def get_application_messages (s : BState) (app_id : String) : List MsgRow :=
  s.messages.filter (fun r => r.application_id == app_id)

/-- `update_application_status`: `UPDATE applications SET status = $1,
updated_at = NOW() WHERE id = $2`. -/
def update_application_status (s : BState) (app_id : String) (st : BStatus)
    (now : Nat) : BState :=
  { s with applications :=
      s.applications.map (fun a =>
        if a.id == app_id then { a with status := st, updated_at := now } else a) }

/-- `bot.send_message`: deliver a fresh message to a chat, returning its
message id. -/
def send_message (s : BState) (chat : Int) (c : MsgContent) : BState × Nat :=
  let mid := s.nextMsgId
  ({ s with chats := s.chats ++ [⟨chat, mid, c⟩], nextMsgId := mid + 1 }, mid)

/-- `bot.edit_message_text`: in-place edit of an already delivered
message (no effect when the target does not exist, matching the
swallowed per-edit exception). -/
def edit_message_text (s : BState) (chat : Int) (mid : Nat) (c : MsgContent) : BState :=
  { s with chats :=
      s.chats.map (fun m =>
        if m.chat_id = chat ∧ m.message_id = mid then { m with content := c } else m) }

/-- Content currently shown by a delivered message, if it exists. -/
def chatContent (s : BState) (chat : Int) (mid : Nat) : Option MsgContent :=
  (s.chats.find? (fun m => m.chat_id = chat ∧ m.message_id = mid)).map TgMsg.content

/-- First recorded message id for `(app_id, chat)` in the `messages`
table, i.e. the NotificationRef lookup. -/
def lookupRef : List MsgRow → String → Int → Option Nat
  | [], _, _ => none
  | r :: rest, app_id, chat =>
    if r.application_id = app_id ∧ r.chat_id = chat then some r.message_id
    else lookupRef rest app_id chat

/-- The HTTP response of `/submit_application`; the handler body cannot
fail in this model, so the response is always the success JSON. -/
inductive BHttpResp where
  | success (application_id : String)
  deriving DecidableEq, Repr

/-- `http_application_handler`: mint the next id under `app_lock`, insert
the row with status `received`, and enqueue `(app_id, "website")`. -/
def http_application_handler (s : BState) (application_data telegram : String)
    (now : Nat) : BState × BHttpResp :=
  let p := get_next_application_id s.counter
  let s₁ := { s with counter := p.1 }
  let s₂ := save_application s₁ p.2 .received application_data telegram now
  ({ s₂ with queue := s₂.queue ++ [(p.2, .website)] }, .success p.2)

/-- Python `needle in haystack` on strings. -/
def pyContains (haystack needle : String) : Bool :=
  (haystack.splitOn needle).length ≥ 2

/-- The chat-intake marker string. -/
def applicationMarker : String := "НОВАЯ ЗАЯВКА В VEXERADUBBING"

/-- The contact extraction of `handle_application`:
`next((line.split(': ')[1] for line in text.split('\n') if "Telegram" in line), "N/A")`.
Returns `none` when the first matching line has no `': '` separator, in
which case the Python `[1]` raises `IndexError` and the broad handler
swallows it — after the counter was already incremented. -/
def extractTelegram (text : String) : Option String :=
  match (text.splitOn "\n").filter (fun l => pyContains l "Telegram") with
  | [] => some "N/A"
  | l :: _ =>
    match l.splitOn ": " with
    | _ :: v :: _ => some v
    | _ => none

/-- `handle_application` (chat intake): on the marker, mint an id, parse
the contact, insert with status `pending` and enqueue; returns the id of
the accepted submission, or `none` when the message is not an
application or the contact parse raised. -/
def handle_application (s : BState) (text : String) (now : Nat) :
    BState × Option String :=
  if pyContains text applicationMarker then
    let p := get_next_application_id s.counter
    let s₁ := { s with counter := p.1 }
    match extractTelegram text with
    | none => (s₁, none)
    | some telegram =>
      let s₂ := save_application s₁ p.2 .pending text telegram now
      ({ s₂ with queue := s₂.queue ++ [(p.2, .telegramSrc)] }, some p.2)
  else (s, none)

/-- The notification fan-out inside `process_http_applications`: for each
admin in order, attempt the send; on success record the NotificationRef;
on failure (modelled by `sendOk`) log and continue. -/
def fanout (sendOk : Int → Bool) (app_id : String) : BState → List Int → BState
  | s, [] => s
  | s, admin :: rest =>
    if sendOk admin then
      let p := send_message s admin (.newApplication app_id)
      let s' := { p.1 with messages := save_message p.1.messages app_id admin p.2 }
      fanout sendOk app_id s' rest
    else
      fanout sendOk app_id s rest

/-- One iteration of the `process_http_applications` loop: pop the queue,
fan the notification out to all admins, then set the status to
`pending`. -/
def process_one (admins : List Int) (sendOk : Int → Bool) (now : Nat)
    (s : BState) : BState :=
  match s.queue with
  | [] => s
  | (app_id, _) :: rest =>
    let s₁ := { s with queue := rest }
    match get_application s₁ app_id with
    | none => s₁
    | some _ =>
      let s₂ := fanout sendOk app_id s₁ admins
      update_application_status s₂ app_id .pending now

/-- The callback actions parsed from `action_appId`. -/
inductive BAction where
  | approve
  | reject
  | view
  deriving DecidableEq, Repr

/-- The observable outcome of `button_handler`. -/
inductive BResult where
  | denied
  | notFound
  | viewed
  | done (st : BStatus)
  deriving DecidableEq, Repr

/-- Edit every recorded copy belonging to a chat other than the acting
admin's user id (the `if msg['chat_id'] != query.from_user.id` loop). -/
def editOthers (actor : Int) (c : MsgContent) : BState → List MsgRow → BState
  | s, [] => s
  | s, r :: rest =>
    if r.chat_id ≠ actor then
      editOthers actor c (edit_message_text s r.chat_id r.message_id c) rest
    else
      editOthers actor c s rest

/-- `button_handler` (`bot.py` lines 315–380).  `cbChat`/`cbMsg` identify
the message carrying the pressed button (`query.edit_message_text`
edits exactly that message). -/
def button_handler (admins : List Int) (s : BState) (actor : Int)
    (action : BAction) (app_id : String) (cbChat : Int) (cbMsg : Nat)
    (now : Nat) : BState × BResult :=
  if actor ∈ admins then
    match get_application s app_id with
    | none => (edit_message_text s cbChat cbMsg .notFoundNotice, .notFound)
    | some app =>
      match action with
      | .view =>
        (edit_message_text s cbChat cbMsg (.applicationView app_id app.application_data),
         .viewed)
      | .approve =>
        let newText := MsgContent.approvedNotice app_id app.application_data
        let s₁ := update_application_status s app_id .approved now
        let s₂ := edit_message_text s₁ cbChat cbMsg newText
        let rows := get_application_messages s₂ app_id
        (editOthers actor newText s₂ rows, .done .approved)
      | .reject =>
        let newText := MsgContent.rejectedNotice app_id app.application_data
        let s₁ := update_application_status s app_id .rejected now
        let s₂ := edit_message_text s₁ cbChat cbMsg newText
        let rows := get_application_messages s₂ app_id
        (editOthers actor newText s₂ rows, .done .rejected)
  else
    (edit_message_text s cbChat cbMsg .deniedNotice, .denied)

/-- Edit every recorded copy, no skip (the loop in
`_process_application_action`). -/
def editAll (c : MsgContent) : BState → List MsgRow → BState
  | s, [] => s
  | s, r :: rest => editAll c (edit_message_text s r.chat_id r.message_id c) rest

/-- `/review` reply (`_review_application`): admin-gated; sends a fresh
message with the same approve/reject buttons to the issuing admin's
chat and records no NotificationRef. -/
def review_command (admins : List Int) (s : BState) (actor : Int)
    (app_id : String) : BState :=
  if actor ∈ admins then
    match get_application s app_id with
    | none => (send_message s actor .notFoundNotice).1
    | some app => (send_message s actor (.reviewCard app_id app.application_data)).1
  else s

/-- `/approve` and `/reject` commands (`_process_application_action`):
admin-gated; update the status, edit every recorded copy (no skip), then
reply with a confirmation. -/
def process_application_action (admins : List Int) (s : BState) (actor : Int)
    (action : BAction) (app_id : String) (now : Nat) : BState :=
  if actor ∈ admins then
    match get_application s app_id with
    | none => (send_message s actor .notFoundNotice).1
    | some app =>
      match action with
      | .view => s
      | .approve =>
        let newText := MsgContent.approvedNotice app_id app.application_data
        let s₁ := update_application_status s app_id .approved now
        let rows := get_application_messages s₁ app_id
        let s₂ := editAll newText s₁ rows
        (send_message s₂ actor (.actionConfirmation app_id .approved)).1
      | .reject =>
        let newText := MsgContent.rejectedNotice app_id app.application_data
        let s₁ := update_application_status s app_id .rejected now
        let rows := get_application_messages s₁ app_id
        let s₂ := editAll newText s₁ rows
        (send_message s₂ actor (.actionConfirmation app_id .rejected)).1
  else s

end BotDB

/-! ## Operation sequences, reachability and store invariants -/

namespace Flask

/-- One externally triggered operation of the Flask variant: an HTTP
submission or a button press. -/
inductive FStep : FState → FState → Prop where
  | submit (s : FState) (data : JObj) (now : Nat) :
      FStep s (webhook_handler s data now).1
  | button (s : FState) (admins : List Int) (actor : Int) (actorName : String)
      (action : FAction) (app_id : String) (now : Nat) :
      FStep s (button_handler admins s actor actorName action app_id now).1

/-- States reachable from the fresh process state. -/
inductive FReachable : FState → Prop where
  | init : FReachable initState
  | step {s t : FState} : FReachable s → FStep s t → FReachable t

/-- The store invariant of the Flask variant: unique keys inside each
bucket, pairwise-disjoint buckets, every key minted from a counter value
below the current one, pending records unprocessed, and terminal-bucket
records carrying `processed_by` / `processed_time`. -/
structure Inv (s : FState) : Prop where
  counterPos : 1 ≤ s.counter
  nodupP : KeysNodup s.pending
  nodupA : KeysNodup s.approved
  nodupR : KeysNodup s.rejected
  disjPA : ∀ p ∈ s.pending, ∀ q ∈ s.approved, p.1 ≠ q.1
  disjPR : ∀ p ∈ s.pending, ∀ q ∈ s.rejected, p.1 ≠ q.1
  disjAR : ∀ p ∈ s.approved, ∀ q ∈ s.rejected, p.1 ≠ q.1
  boundP : ∀ p ∈ s.pending, ∃ n, 1 ≤ n ∧ n < s.counter ∧ p.1 = pyStr n
  boundA : ∀ p ∈ s.approved, ∃ n, 1 ≤ n ∧ n < s.counter ∧ p.1 = pyStr n
  boundR : ∀ p ∈ s.rejected, ∃ n, 1 ≤ n ∧ n < s.counter ∧ p.1 = pyStr n
  unprocP : ∀ p ∈ s.pending, p.2.processed_by = none ∧ p.2.processed_time = none
  procA : ∀ p ∈ s.approved, p.2.processed_by.isSome ∧ p.2.processed_time.isSome
  procR : ∀ p ∈ s.rejected, p.2.processed_by.isSome ∧ p.2.processed_time.isSome

/-- Run a list of `/submit` requests in order, collecting the
`application_id`s of the accepted ones. -/
def runSubmits : FState → List (JObj × Nat) → FState × List String
  | s, [] => (s, [])
  | s, (d, t) :: rest =>
    let r := webhook_handler s d t
    match r.2 with
    | .ok200 i =>
      let p := runSubmits r.1 rest
      (p.1, i :: p.2)
    | _ => runSubmits r.1 rest

end Flask

namespace BotDB

/-- One inbound intake event of the relational variant. -/
inductive IntakeEv where
  | http (application_data telegram : String) (now : Nat)
  | chat (text : String) (now : Nat)
  deriving Repr

/-- An event that increments the ID counter without storing a record: a
chat message carrying the application marker whose contact extraction
raises `IndexError` (`line.split(': ')[1]` on a line without the
separator). -/
def burnsCounter : IntakeEv → Bool
  | .http _ _ _ => false
  | .chat text _ => pyContains text applicationMarker && !(extractTelegram text).isSome

/-- Run a list of intake events in order, collecting the
`application_id`s of the accepted submissions. -/
def runIntakes : BState → List IntakeEv → BState × List String
  | s, [] => (s, [])
  | s, .http d tg t :: rest =>
    let r := http_application_handler s d tg t
    let p := runIntakes r.1 rest
    match r.2 with
    | .success i => (p.1, i :: p.2)
  | s, .chat text t :: rest =>
    let r := handle_application s text t
    let p := runIntakes r.1 rest
    match r.2 with
    | some i => (p.1, i :: p.2)
    | none => p

/-- One externally triggered operation of the relational variant,
including one iteration of the background queue consumer. -/
inductive BStep : BState → BState → Prop where
  | http (s : BState) (d tg : String) (now : Nat) :
      BStep s (http_application_handler s d tg now).1
  | chat (s : BState) (text : String) (now : Nat) :
      BStep s (handle_application s text now).1
  | process (s : BState) (admins : List Int) (sendOk : Int → Bool) (now : Nat) :
      BStep s (process_one admins sendOk now s)
  | button (s : BState) (admins : List Int) (actor : Int) (action : BAction)
      (app_id : String) (cbChat : Int) (cbMsg : Nat) (now : Nat) :
      BStep s (button_handler admins s actor action app_id cbChat cbMsg now).1
  | review (s : BState) (admins : List Int) (actor : Int) (app_id : String) :
      BStep s (review_command admins s actor app_id)
  | command (s : BState) (admins : List Int) (actor : Int) (action : BAction)
      (app_id : String) (now : Nat) :
      BStep s (process_application_action admins s actor action app_id now)

/-- States reachable from the fresh system state. -/
inductive BReachable : BState → Prop where
  | init : BReachable initB
  | step {s t : BState} : BReachable s → BStep s t → BReachable t

/-- The primary-key property of the `messages` table: at most one row per
`(application_id, chat_id)`. -/
abbrev MsgsNodup (rows : List MsgRow) : Prop :=
  rows.Pairwise (fun r r' => r.application_id ≠ r'.application_id ∨ r.chat_id ≠ r'.chat_id)

/-- The store invariant of the relational variant: every application id
and queued id was minted from a counter value at most the current one,
and the `messages` primary key is respected. -/
structure BInv (s : BState) : Prop where
  boundApp : ∀ a ∈ s.applications, ∃ n, 1 ≤ n ∧ n ≤ s.counter ∧ a.id = appIdFmt n
  boundQueue : ∀ q ∈ s.queue, ∃ n, 1 ≤ n ∧ n ≤ s.counter ∧ q.1 = appIdFmt n
  msgsNodup : MsgsNodup s.messages

end BotDB

/-! ## Concrete sample traces (used by witnesses and counterexamples) -/

namespace Flask

/-- A fully valid sample submission body. -/
def sampleData : JObj :=
  [("name", .jstr "Ann"), ("contact", .jstr "@ann"),
   ("role", .jstr "voice"), ("motivation", .jstr "love it")]

/-- State after one accepted submission. -/
def state1 : FState := (webhook_handler initState sampleData 100).1

/-- State after that submission was approved by admin 5 ("Alice"). -/
def state2 : FState := (button_handler [5, 6] state1 5 "Alice" .approve "1" 200).1

/-- State after the same application was then rejected (re-decision). -/
def state3 : FState := (button_handler [5, 6] state2 5 "Alice" .reject "1" 300).1

/-- The approved record stored in `state2` under key "1". -/
def sampleApprovedApp : FApp :=
  { id := "1", name := "Ann", contact := "@ann", role := "voice",
    experience := .jstr "Не указан", samples := .jstr "Не указаны",
    motivation := "love it", timestamp := 100,
    approvedFlag := true, rejectedFlag := false,
    processed_by := some "Alice", processed_time := some 200 }

end Flask

namespace BotDB

/-- State after one website submission. -/
def bstate1 : BState := (http_application_handler initB "raw application" "@bob" 0).1

/-- State after the queue consumer fanned the notification out to
admins 1 and 2 (both sends succeed). -/
def bstate2 : BState := process_one [1, 2] (fun _ => true) 10 bstate1

/-- State after admin 1 ran the review command, producing a fresh
buttons-bearing message (message id 2) in chat 1 with no recorded
NotificationRef. -/
def bstate3 : BState := review_command [1, 2] bstate2 1 "APP-0001"

/-- State after admin 1 pressed approve on that review message
(callback message = chat 1, message id 2). -/
def bstate4 : BState := (button_handler [1, 2] bstate3 1 .approve "APP-0001" 1 2 30).1

/-- State after an admin approved the submission by command while its
queue entry was still unprocessed. -/
def bstateApproved : BState := process_application_action [1] bstate1 1 .approve "APP-0001" 10

/-- State after the queue consumer then drained the stale queue entry. -/
def bstateReverted : BState := process_one [1] (fun _ => true) 20 bstateApproved

/-- The approved row stored in `bstateApproved`. -/
def approvedRow : BApp :=
  { id := "APP-0001", status := .approved, application_data := "raw application",
    telegram_username := "@bob", created_at := 0, updated_at := 10 }

/-- The freshly received row stored in `bstate1`. -/
def receivedRow : BApp :=
  { id := "APP-0001", status := .received, application_data := "raw application",
    telegram_username := "@bob", created_at := 0, updated_at := 0 }

/-- The pending row stored in `bstate2` (after the fan-out). -/
def pendingRow : BApp :=
  { id := "APP-0001", status := .pending, application_data := "raw application",
    telegram_username := "@bob", created_at := 0, updated_at := 10 }

end BotDB

/-! ## Library lemmas for the embeddings -/

theorem digitsRevAux_fuel_irrel :
    ∀ f₁ f₂ n, n ≤ f₁ → n ≤ f₂ → digitsRevAux f₁ n = digitsRevAux f₂ n := by
  intro f₁
  induction f₁ with
  | zero =>
    intro f₂ n h₁ _
    interval_cases n
    cases f₂ <;> rfl
  | succ f ih =>
    intro f₂ n h₁ h₂
    match n, f₂ with
    | 0, f₂ => cases f₂ <;> rfl
    | n + 1, 0 => omega
    | n + 1, f₂ + 1 =>
      show (n + 1) % 10 :: digitsRevAux f ((n + 1) / 10) =
        (n + 1) % 10 :: digitsRevAux f₂ ((n + 1) / 10)
      have hd : (n + 1) / 10 ≤ n := by omega
      rw [ih f₂ ((n + 1) / 10) (by omega) (by omega)]

theorem digitsRev_succ (n : Nat) :
    digitsRev (n + 1) = (n + 1) % 10 :: digitsRev ((n + 1) / 10) := by
  show digitsRevAux (n + 1) (n + 1) = (n + 1) % 10 :: digitsRevAux ((n + 1) / 10) ((n + 1) / 10)
  show (n + 1) % 10 :: digitsRevAux n ((n + 1) / 10) = _
  have hd : (n + 1) / 10 ≤ n := by omega
  rw [digitsRevAux_fuel_irrel n ((n + 1) / 10) ((n + 1) / 10) hd (Nat.le_refl _)]

theorem digitsRev_lt_ten (n : Nat) : ∀ d ∈ digitsRev n, d < 10 := by
  induction n using Nat.strong_induction_on with
  | _ n ih =>
    match n with
    | 0 => intro d hd; simp [digitsRev, digitsRevAux] at hd
    | n + 1 =>
      rw [digitsRev_succ]
      intro d hd
      rcases List.mem_cons.mp hd with h | h
      · omega
      · exact ih ((n + 1) / 10) (by omega) d h

theorem toNat_digitChar (d : Nat) (hd : d < 10) : (digitChar d).toNat = 48 + d := by
  interval_cases d <;> decide

/-- Folding the decoder over the reversed digit string of a positive `n`
starting from accumulator `a` yields `a * 10 ^ k + n`. -/
theorem decode_digits_aux (n : Nat) (hn : 0 < n) : ∀ a : Nat,
    List.foldl (fun a c => a * 10 + (c.toNat - 48)) a ((digitsRev n).reverse.map digitChar) =
      a * 10 ^ (digitsRev n).length + n := by
  induction n using Nat.strong_induction_on with
  | _ n ih =>
    intro a
    match n, hn with
    | n + 1, _ =>
      rw [digitsRev_succ]
      simp only [List.reverse_cons, List.map_append, List.map_cons, List.map_nil,
        List.foldl_append, List.foldl_cons, List.foldl_nil, List.length_cons]
      by_cases h0 : (n + 1) / 10 = 0
      · have hsmall : n + 1 < 10 := by omega
        have : digitsRev ((n + 1) / 10) = [] := by rw [h0]; rfl
        rw [this]
        simp only [List.reverse_nil, List.map_nil, List.foldl_nil, List.length_nil]
        rw [toNat_digitChar _ (Nat.mod_lt _ (by omega))]
        have : (n + 1) % 10 = n + 1 := Nat.mod_eq_of_lt hsmall
        omega
      · rw [ih ((n + 1) / 10) (by omega) (by omega) a]
        rw [toNat_digitChar _ (Nat.mod_lt _ (by omega))]
        have hsplit : (n + 1) / 10 * 10 + (n + 1) % 10 = n + 1 := by omega
        have hpow : a * 10 ^ (digitsRev ((n + 1) / 10)).length * 10 =
            a * 10 ^ ((digitsRev ((n + 1) / 10)).length + 1) := by ring
        calc (a * 10 ^ (digitsRev ((n + 1) / 10)).length + (n + 1) / 10) * 10 + (48 + (n + 1) % 10 - 48)
            = a * 10 ^ (digitsRev ((n + 1) / 10)).length * 10 + ((n + 1) / 10 * 10 + (n + 1) % 10) := by
              omega
          _ = a * 10 ^ ((digitsRev ((n + 1) / 10)).length + 1) + (n + 1) := by rw [hpow, hsplit]

/-- The decoder is a left inverse of `pyStr`. -/
theorem decode_pyStr (n : Nat) : decodeDigits (pyStr n).data = n := by
  by_cases h : n = 0
  · subst h; decide
  · unfold pyStr
    rw [if_neg h]
    show decodeDigits ((digitsRev n).reverse.map digitChar) = n
    unfold decodeDigits
    rw [decode_digits_aux n (by omega) 0]
    simp

theorem pyStr_injective : Function.Injective pyStr := by
  intro m n h
  have := congrArg (fun s => decodeDigits s.data) h
  simpa [decode_pyStr] using this

theorem decode_replicate_zeros (k : Nat) (l : List Char) :
    decodeDigits (List.replicate k '0' ++ l) = decodeDigits l := by
  induction k with
  | zero => rfl
  | succ k ih =>
    show decodeDigits ('0' :: (List.replicate k '0' ++ l)) = decodeDigits l
    unfold decodeDigits at *
    simpa using ih

theorem data_append (a b : String) : (a ++ b).data = a.data ++ b.data := by
  cases a; cases b; rfl

theorem decode_pad4_pyStr (n : Nat) : decodeDigits (pad4 (pyStr n)).data = n := by
  unfold pad4
  rw [data_append]
  show decodeDigits (List.replicate (4 - (pyStr n).length) '0' ++ (pyStr n).data) = n
  rw [decode_replicate_zeros, decode_pyStr]

theorem appIdFmt_injective : Function.Injective appIdFmt := by
  intro m n h
  unfold appIdFmt at h
  have hdata := congrArg String.data h
  rw [data_append, data_append] at hdata
  have htail : (pad4 (pyStr m)).data = (pad4 (pyStr n)).data :=
    List.append_cancel_left hdata
  have := congrArg decodeDigits htail
  rwa [decode_pad4_pyStr, decode_pad4_pyStr] at this

theorem dictGet_set_self {α : Type} (d : List (String × α)) (k : String) (v : α) :
    dictGet (dictSet d k v) k = some v := by
  induction d with
  | nil => simp [dictSet, dictGet]
  | cons p rest ih =>
    obtain ⟨k', w⟩ := p
    by_cases h : k' = k
    · simp [dictSet, dictGet, h]
    · simp [dictSet, dictGet, h, ih]

theorem dictGet_set_ne {α : Type} (d : List (String × α)) (k key : String) (v : α)
    (h : k ≠ key) : dictGet (dictSet d k v) key = dictGet d key := by
  induction d with
  | nil => simp [dictSet, dictGet, h]
  | cons p rest ih =>
    obtain ⟨k', w⟩ := p
    by_cases h' : k' = k
    · subst h'; simp [dictSet, dictGet, h]
    · by_cases h'' : k' = key <;> simp [dictSet, dictGet, h', h'', ih, Ne.symm h]

theorem mem_dictSet {α : Type} {d : List (String × α)} {k : String} {v : α} {p : String × α}
    (h : p ∈ dictSet d k v) : p = (k, v) ∨ p ∈ d := by
  induction d with
  | nil => simp [dictSet] at h; simp [h]
  | cons q rest ih =>
    obtain ⟨k', w⟩ := q
    by_cases h' : k' = k
    · simp [dictSet, h'] at h
      rcases h with h | h
      · exact Or.inl (by simp [h])
      · exact Or.inr (List.mem_cons_of_mem _ h)
    · simp [dictSet, h'] at h
      rcases h with h | h
      · exact Or.inr (by simp [h])
      · rcases ih h with h | h
        · exact Or.inl h
        · exact Or.inr (List.mem_cons_of_mem _ h)

theorem mem_dictDel {α : Type} {d : List (String × α)} {k : String} {p : String × α}
    (h : p ∈ dictDel d k) : p ∈ d := by
  induction d with
  | nil => simp [dictDel] at h
  | cons q rest ih =>
    obtain ⟨k', w⟩ := q
    by_cases h' : k' = k
    · simp [dictDel, h'] at h
      exact List.mem_cons_of_mem _ h
    · simp [dictDel, h'] at h
      rcases h with h | h
      · simp [h]
      · exact List.mem_cons_of_mem _ (ih h)

theorem dictGet_none_iff {α : Type} (d : List (String × α)) (key : String) :
    dictGet d key = none ↔ ∀ p ∈ d, p.1 ≠ key := by
  induction d with
  | nil => simp [dictGet]
  | cons p rest ih =>
    obtain ⟨k, v⟩ := p
    by_cases h : k = key
    · simp [dictGet, h]
    · simp [dictGet, h, ih]

theorem dictGet_isSome_iff {α : Type} (d : List (String × α)) (key : String) :
    (dictGet d key).isSome ↔ ∃ p ∈ d, p.1 = key := by
  induction d with
  | nil => simp [dictGet]
  | cons p rest ih =>
    obtain ⟨k, v⟩ := p
    by_cases h : k = key
    · simp [dictGet, h]
    · simp [dictGet, h, ih]

theorem keysNodup_dictSet {α : Type} {d : List (String × α)} (k : String) (v : α)
    (h : KeysNodup d) : KeysNodup (dictSet d k v) := by
  induction d with
  | nil => simp [dictSet, KeysNodup]
  | cons p rest ih =>
    obtain ⟨k', w⟩ := p
    rcases List.pairwise_cons.mp h with ⟨hhead, htail⟩
    by_cases h' : k' = k
    · subst h'
      unfold KeysNodup
      simp only [dictSet, if_pos rfl]
      exact List.pairwise_cons.mpr ⟨fun q hq => hhead q hq, htail⟩
    · unfold KeysNodup
      simp only [dictSet, if_neg h']
      refine List.pairwise_cons.mpr ⟨?_, ih htail⟩
      intro q hq
      rcases mem_dictSet hq with rfl | hq
      · exact h'
      · exact hhead q hq

theorem keysNodup_dictDel {α : Type} {d : List (String × α)} (k : String)
    (h : KeysNodup d) : KeysNodup (dictDel d k) := by
  induction d with
  | nil => simp [dictDel, KeysNodup]
  | cons p rest ih =>
    obtain ⟨k', w⟩ := p
    rcases List.pairwise_cons.mp h with ⟨hhead, htail⟩
    by_cases h' : k' = k
    · simp only [dictDel, h', if_true]
      exact htail
    · simp only [dictDel, h', if_false]
      refine List.pairwise_cons.mpr ⟨?_, ih htail⟩
      intro q hq
      exact hhead q (mem_dictDel hq)

theorem dictGet_dictDel_self {α : Type} {d : List (String × α)} (k : String)
    (h : KeysNodup d) : dictGet (dictDel d k) k = none := by
  induction d with
  | nil => simp [dictDel, dictGet]
  | cons p rest ih =>
    obtain ⟨k', w⟩ := p
    rcases List.pairwise_cons.mp h with ⟨hhead, htail⟩
    by_cases h' : k' = k
    · subst h'
      simp only [dictDel, if_true]
      rw [dictGet_none_iff]
      intro q hq
      exact (hhead q hq).symm
    · simp [dictDel, dictGet, h', ih htail]

theorem dictGet_dictDel_ne {α : Type} (d : List (String × α)) (k key : String)
    (h : k ≠ key) : dictGet (dictDel d k) key = dictGet d key := by
  induction d with
  | nil => rfl
  | cons p rest ih =>
    obtain ⟨k', w⟩ := p
    by_cases h' : k' = k
    · subst h'
      simp [dictDel, dictGet, h]
    · by_cases h'' : k' = key <;> simp [dictDel, dictGet, h', h'', ih, Ne.symm h]

theorem dictGet_set_isSome {α : Type} (d : List (String × α)) (k key : String) (v : α)
    (h : (dictGet d key).isSome) : (dictGet (dictSet d k v) key).isSome := by
  by_cases hk : k = key
  · subst hk; simp [dictGet_set_self]
  · rwa [dictGet_set_ne d k key v hk]

theorem mem_dictDel_key_ne {α : Type} {d : List (String × α)} (hn : KeysNodup d)
    (k : String) : ∀ p ∈ dictDel d k, p.1 ≠ k :=
  (dictGet_none_iff _ _).mp (dictGet_dictDel_self k hn)

theorem dictGet_mem {α : Type} :
    ∀ {d : List (String × α)} {k : String} {v : α}, dictGet d k = some v → (k, v) ∈ d := by
  intro d
  induction d with
  | nil => intro k v h; simp [dictGet] at h
  | cons p rest ih =>
    intro k v h
    obtain ⟨k', w⟩ := p
    by_cases hk : k' = k
    · subst hk
      simp only [dictGet, if_pos rfl] at h
      injection h with h
      subst h
      exact List.mem_cons_self _ _
    · simp only [dictGet, if_neg hk] at h
      exact List.mem_cons_of_mem _ (ih h)

/-! ## Validation lemmas for the Flask `/submit` endpoint -/

namespace Flask

theorem validateFields_ok_of (data : JObj) :
    ∀ fields : List String,
      (∀ f ∈ fields, ∃ str, dictGet data f = some (.jstr str) ∧ pyStrip str ≠ "") →
      validateFields data fields = .ok
  | [], _ => rfl
  | f :: rest, h => by
    obtain ⟨str, hget, hne⟩ := h f (List.mem_cons_self f rest)
    have := validateFields_ok_of data rest (fun g hg => h g (List.mem_cons_of_mem f hg))
    simp [validateFields, hget, hne, this]

theorem validateFields_bad_of (data : JObj) :
    ∀ fields : List String,
      (∀ f ∈ fields, ∀ v, dictGet data f = some v → ∃ str, v = .jstr str) →
      (∃ f ∈ fields, dictGet data f = none ∨
        ∃ str, dictGet data f = some (.jstr str) ∧ pyStrip str = "") →
      ∃ f, validateFields data fields = .bad400 f
  | [], _, hbad => by simp at hbad
  | g :: rest, hstr, hbad => by
    cases hget : dictGet data g with
    | none => exact ⟨g, by simp [validateFields, hget]⟩
    | some v =>
      obtain ⟨str, rfl⟩ := hstr g (List.mem_cons_self g rest) v hget
      by_cases hblank : pyStrip str = ""
      · exact ⟨g, by simp [validateFields, hget, hblank]⟩
      · obtain ⟨f, hf, hcase⟩ := hbad
        have hfrest : f ∈ rest := by
          rcases List.mem_cons.mp hf with rfl | hfr
          · exfalso
            rcases hcase with hnone | ⟨str2, hget2, hblank2⟩
            · rw [hget] at hnone; exact Option.noConfusion hnone
            · rw [hget] at hget2
              have : str = str2 := by
                injection hget2 with h2; injection h2
              exact hblank (this ▸ hblank2)
          · exact hfr
        obtain ⟨f2, hval⟩ := validateFields_bad_of data rest
          (fun g2 hg2 => hstr g2 (List.mem_cons_of_mem g hg2))
          ⟨f, hfrest, hcase⟩
        exact ⟨f2, by simp [validateFields, hget, hblank, hval]⟩

theorem validateFields_exn_of (data : JObj) :
    ∀ (pre : List String) (post : List String) (f : String) (v : JValue),
      (∀ g ∈ pre, ∃ str, dictGet data g = some (.jstr str) ∧ pyStrip str ≠ "") →
      dictGet data f = some v →
      (∀ str, v ≠ .jstr str) →
      validateFields data (pre ++ f :: post) = .exn
  | [], post, f, v, _, hget, hns => by
    cases v with
    | jstr str => exact absurd rfl (hns str)
    | jnum n => simp [validateFields, hget]
    | jbool b => simp [validateFields, hget]
    | jnull => simp [validateFields, hget]
  | g :: pre, post, f, v, hpre, hget, hns => by
    obtain ⟨str, hg, hne⟩ := hpre g (List.mem_cons_self g pre)
    have := validateFields_exn_of data pre post f v
      (fun g2 hg2 => hpre g2 (List.mem_cons_of_mem g hg2)) hget hns
    simp [validateFields, hg, hne, this]

theorem requiredAllStrings_spec (data : JObj) (h : requiredAllStrings data = true) :
    ∀ f ∈ required_fields, ∀ v, dictGet data f = some v → ∃ str, v = JValue.jstr str := by
  intro f hf v hv
  have := List.all_eq_true.mp h f hf
  rw [hv] at this
  cases v with
  | jstr str => exact ⟨str, rfl⟩
  | jnum n => simp at this
  | jbool b => simp at this
  | jnull => simp at this

theorem someRequiredMissingOrBlank_spec (data : JObj)
    (h : someRequiredMissingOrBlank data = true) :
    ∃ f ∈ required_fields, dictGet data f = none ∨
      ∃ str, dictGet data f = some (.jstr str) ∧ pyStrip str = "" := by
  obtain ⟨f, hf, hcond⟩ := List.any_eq_true.mp h
  refine ⟨f, hf, ?_⟩
  cases hv : dictGet data f with
  | none => exact Or.inl rfl
  | some v =>
    rw [hv] at hcond
    cases v with
    | jstr str =>
      simp only [beq_iff_eq] at hcond
      exact Or.inr ⟨str, rfl, hcond⟩
    | jnum n => simp at hcond
    | jbool b => simp at hcond
    | jnull => simp at hcond

theorem allRequiredPresentNonblank_spec (data : JObj)
    (h : allRequiredPresentNonblank data = true) :
    ∀ f ∈ required_fields, ∃ str, dictGet data f = some (.jstr str) ∧ pyStrip str ≠ "" := by
  intro f hf
  have := List.all_eq_true.mp h f hf
  cases hv : dictGet data f with
  | none => rw [hv] at this; simp at this
  | some v =>
    rw [hv] at this
    cases v with
    | jstr str =>
      simp only [Bool.not_eq_true', beq_eq_false_iff_ne, ne_eq] at this
      exact ⟨str, rfl, this⟩
    | jnum n => simp at this
    | jbool b => simp at this
    | jnull => simp at this

end Flask

/-! ## Claim C5 -/

/-- C5 (amended): for every `/submit` body whose present required fields
all carry string values, a missing or blank required field yields the
400 response with the store untouched (no record, counter unchanged),
and a body with all four required fields present and non-blank yields
HTTP 200 carrying `application_id = str(counter)` with exactly one new
pending record and the counter incremented. -/
theorem c5_submit_validation (s : Flask.FState) (data : Flask.JObj) (now : Nat)
    (hstr : Flask.requiredAllStrings data = true) :
    (Flask.someRequiredMissingOrBlank data = true →
      ∃ f, Flask.webhook_handler s data now = (s, .err400 f)) ∧
    (Flask.allRequiredPresentNonblank data = true →
      Flask.webhook_handler s data now =
        ({ s with counter := s.counter + 1,
                  pending := dictSet s.pending (pyStr s.counter)
                                 (Flask.mkApplication data (pyStr s.counter) now) },
         .ok200 (pyStr s.counter))) := by
  constructor
  · intro hbad
    obtain ⟨f, hval⟩ := Flask.validateFields_bad_of data Flask.required_fields
      (Flask.requiredAllStrings_spec data hstr)
      (Flask.someRequiredMissingOrBlank_spec data hbad)
    refine ⟨f, ?_⟩
    unfold Flask.webhook_handler
    rw [hval]
  · intro hok
    have hval := Flask.validateFields_ok_of data Flask.required_fields
      (Flask.allRequiredPresentNonblank_spec data hok)
    unfold Flask.webhook_handler
    rw [hval]

/-- C5 counterexample: a body that IS missing required fields (`contact`,
`role`, `motivation` are all absent) but carries a non-string `name`
value receives the 500 response, not the claimed 400-class one. -/
theorem c5_counterexample :
    dictGet ([("name", Flask.JValue.jnum 7)] : Flask.JObj) "motivation" = none ∧
    Flask.webhook_handler Flask.initState [("name", Flask.JValue.jnum 7)] 100 =
      (Flask.initState, .err500) := by
  decide

/-- Witness for `c5_submit_validation` at concrete inputs: a body missing
`motivation` is refused with 400 and an all-valid body is accepted. -/
theorem c5_witness :
    (∃ f, Flask.webhook_handler Flask.initState
        [("name", Flask.JValue.jstr "Ann")] 50 = (Flask.initState, .err400 f)) ∧
    (Flask.webhook_handler Flask.initState Flask.sampleData 100 =
      ({ Flask.initState with counter := 2,
                              pending := dictSet Flask.initState.pending (pyStr 1)
                                             (Flask.mkApplication Flask.sampleData (pyStr 1) 100) },
       .ok200 (pyStr 1))) :=
  ⟨(c5_submit_validation Flask.initState [("name", Flask.JValue.jstr "Ann")] 50
      (by decide)).1 (by decide),
   (c5_submit_validation Flask.initState Flask.sampleData 100 (by decide)).2 (by decide)⟩

theorem jnull_ne_jstr (str : String) : Flask.JValue.jnull ≠ Flask.JValue.jstr str :=
  fun h => Flask.JValue.noConfusion h

/-! ## Claim C10 -/

/-- C10 (amended): for every `/submit` body containing a required field
with a present but non-string value, provided every required field
earlier in the validation order (name, contact, role, motivation) is
present with a non-blank string value, the handler's `.strip()` raises,
the broad handler catches it, and the client receives the 500 response
with no record created and the counter unchanged. -/
theorem c10_nonstring_gives_500 (s : Flask.FState) (data : Flask.JObj) (now : Nat)
    (pre post : List String) (f : String) (v : Flask.JValue)
    (hsplit : Flask.required_fields = pre ++ f :: post)
    (hpre : ∀ g ∈ pre, ∃ str, dictGet data g = some (.jstr str) ∧ Flask.pyStrip str ≠ "")
    (hget : dictGet data f = some v)
    (hns : ∀ str, v ≠ Flask.JValue.jstr str) :
    Flask.webhook_handler s data now = (s, .err500) := by
  have hval : Flask.validateFields data Flask.required_fields = .exn := by
    rw [hsplit]
    exact Flask.validateFields_exn_of data pre post f v hpre hget hns
  unfold Flask.webhook_handler
  rw [hval]

/-- C10 counterexample: a body whose required field `contact` is present
with a non-string value nevertheless receives the 400 validation
response, because the blank `name` is checked first — so the claim's
unconditional "does not return the 400 validation response" is false. -/
theorem c10_counterexample :
    Flask.webhook_handler Flask.initState
        [("name", Flask.JValue.jstr ""), ("contact", Flask.JValue.jnum 42),
         ("role", Flask.JValue.jstr "x"), ("motivation", Flask.JValue.jstr "y")] 100 =
      (Flask.initState, .err400 "name") := by
  decide

/-- Witness for `c10_nonstring_gives_500`: a null `contact` behind a
valid `name` yields the 500 response and leaves the state unchanged. -/
theorem c10_witness :
    Flask.webhook_handler Flask.initState
        [("name", Flask.JValue.jstr "Ann"), ("contact", Flask.JValue.jnull)] 10 =
      (Flask.initState, .err500) :=
  c10_nonstring_gives_500 Flask.initState
    [("name", Flask.JValue.jstr "Ann"), ("contact", Flask.JValue.jnull)] 10
    ["name"] ["role", "motivation"] "contact" .jnull
    (by decide)
    (by
      intro g hg
      fin_cases hg
      exact ⟨"Ann", rfl, by decide⟩)
    rfl jnull_ne_jstr

/-! ## Claim C6 -/

/-- C6 (confirmed): a non-admin invoking approve, reject, delete (or any
other button action) is denied and causes no state change — in the Flask
variant the state is returned untouched, and in the relational variant
the `applications`, `messages`, `counter` and `queue` components are all
unchanged (only the pressed message is edited to the denial text); the
`/approve`-style commands of the relational variant are likewise
no-ops. -/
theorem c6_nonadmin_denied (admins : List Int) (actor : Int) (h : actor ∉ admins) :
    (∀ (s : Flask.FState) (actorName : String) (action : Flask.FAction)
        (app_id : String) (now : Nat),
      Flask.button_handler admins s actor actorName action app_id now =
        (s, .noPermission)) ∧
    (∀ (s : BotDB.BState) (action : BotDB.BAction) (app_id : String)
        (cbChat : Int) (cbMsg : Nat) (now : Nat),
      (BotDB.button_handler admins s actor action app_id cbChat cbMsg now).2 =
          .denied ∧
      (BotDB.button_handler admins s actor action app_id cbChat cbMsg now).1.applications =
          s.applications ∧
      (BotDB.button_handler admins s actor action app_id cbChat cbMsg now).1.messages =
          s.messages ∧
      (BotDB.button_handler admins s actor action app_id cbChat cbMsg now).1.counter =
          s.counter ∧
      (BotDB.button_handler admins s actor action app_id cbChat cbMsg now).1.queue =
          s.queue) ∧
    (∀ (s : BotDB.BState) (action : BotDB.BAction) (app_id : String) (now : Nat),
      BotDB.process_application_action admins s actor action app_id now = s) := by
  refine ⟨?_, ?_, ?_⟩
  · intro s actorName action app_id now
    simp [Flask.button_handler, h]
  · intro s action app_id cbChat cbMsg now
    simp [BotDB.button_handler, h, BotDB.edit_message_text]
  · intro s action app_id now
    simp [BotDB.process_application_action, h]

/-- Witness for `c6_nonadmin_denied`: user 7 is not in the admin list
`[5, 6]`; their approve press and command are refused on the sample
states. -/
theorem c6_witness :
    Flask.button_handler [5, 6] Flask.state1 7 "Eve" .approve "1" 400 =
        (Flask.state1, .noPermission) ∧
    (BotDB.button_handler [5, 6] BotDB.bstate2 7 .approve "APP-0001" 7 9 400).2 =
        .denied ∧
    BotDB.process_application_action [5, 6] BotDB.bstate2 7 .approve "APP-0001" 400 =
        BotDB.bstate2 :=
  ⟨(c6_nonadmin_denied [5, 6] 7 (by decide)).1 Flask.state1 "Eve" .approve "1" 400,
   ((c6_nonadmin_denied [5, 6] 7 (by decide)).2.1 BotDB.bstate2 .approve "APP-0001" 7 9 400).1,
   (c6_nonadmin_denied [5, 6] 7 (by decide)).2.2 BotDB.bstate2 .approve "APP-0001" 400⟩

/-! ## Preservation of the Flask store invariant -/

namespace Flask

theorem findApplication_cases (s : FState) (app_id : String) (app : FApp) (src : Bucket)
    (hfind : findApplication s app_id = some (app, src)) :
    (src = .pending ∧ dictGet s.pending app_id = some app) ∨
    (src = .approved ∧ dictGet s.pending app_id = none ∧
      dictGet s.approved app_id = some app) ∨
    (src = .rejected ∧ dictGet s.pending app_id = none ∧
      dictGet s.approved app_id = none ∧ dictGet s.rejected app_id = some app) := by
  unfold findApplication at hfind
  cases hp : dictGet s.pending app_id with
  | some a =>
    rw [hp] at hfind
    simp only [Option.some.injEq, Prod.mk.injEq] at hfind
    exact Or.inl ⟨hfind.2.symm, by rw [hfind.1]⟩
  | none =>
    rw [hp] at hfind
    cases ha : dictGet s.approved app_id with
    | some a =>
      rw [ha] at hfind
      simp only [Option.some.injEq, Prod.mk.injEq] at hfind
      exact Or.inr (Or.inl ⟨hfind.2.symm, rfl, by rw [hfind.1]⟩)
    | none =>
      rw [ha] at hfind
      cases hr : dictGet s.rejected app_id with
      | some a =>
        rw [hr] at hfind
        simp only [Option.some.injEq, Prod.mk.injEq] at hfind
        exact Or.inr (Or.inr ⟨hfind.2.symm, rfl, rfl, by rw [hfind.1]⟩)
      | none => rw [hr] at hfind; exact Option.noConfusion hfind

theorem inv_init : Inv initState := by
  refine ⟨Nat.le_refl 1, ?_, ?_, ?_, ?_, ?_, ?_, ?_, ?_, ?_, ?_, ?_, ?_⟩ <;>
    simp [initState, KeysNodup]

theorem inv_insert_pending (s : FState) (app : FApp)
    (hby : app.processed_by = none) (hti : app.processed_time = none) (h : Inv s) :
    Inv { s with counter := s.counter + 1,
                 pending := dictSet s.pending (pyStr s.counter) app } := by
  refine ⟨Nat.le_succ_of_le h.counterPos, keysNodup_dictSet _ _ h.nodupP, h.nodupA,
    h.nodupR, ?_, ?_, h.disjAR, ?_, ?_, ?_, ?_, h.procA, h.procR⟩
  · intro p hp q hq
    rcases mem_dictSet hp with rfl | hp'
    · show pyStr s.counter ≠ q.1
      obtain ⟨n, hn1, hn2, he⟩ := h.boundA q hq
      rw [he]
      intro heq
      have := pyStr_injective heq
      omega
    · exact h.disjPA p hp' q hq
  · intro p hp q hq
    rcases mem_dictSet hp with rfl | hp'
    · show pyStr s.counter ≠ q.1
      obtain ⟨n, hn1, hn2, he⟩ := h.boundR q hq
      rw [he]
      intro heq
      have := pyStr_injective heq
      omega
    · exact h.disjPR p hp' q hq
  · intro p hp
    rcases mem_dictSet hp with rfl | hp'
    · exact ⟨s.counter, h.counterPos, Nat.lt_succ_self s.counter, rfl⟩
    · obtain ⟨n, hn1, hn2, he⟩ := h.boundP p hp'
      exact ⟨n, hn1, Nat.lt_succ_of_lt hn2, he⟩
  · intro p hp
    obtain ⟨n, hn1, hn2, he⟩ := h.boundA p hp
    exact ⟨n, hn1, Nat.lt_succ_of_lt hn2, he⟩
  · intro p hp
    obtain ⟨n, hn1, hn2, he⟩ := h.boundR p hp
    exact ⟨n, hn1, Nat.lt_succ_of_lt hn2, he⟩
  · intro p hp
    rcases mem_dictSet hp with rfl | hp'
    · exact ⟨hby, hti⟩
    · exact h.unprocP p hp'

theorem inv_webhook (s : FState) (data : JObj) (now : Nat) (h : Inv s) :
    Inv (webhook_handler s data now).1 := by
  cases hval : validateFields data required_fields with
  | bad400 f =>
    have he : (webhook_handler s data now).1 = s := by
      unfold webhook_handler; rw [hval]
    rwa [he]
  | exn =>
    have he : (webhook_handler s data now).1 = s := by
      unfold webhook_handler; rw [hval]
    rwa [he]
  | ok =>
    have he : (webhook_handler s data now).1 =
        { s with counter := s.counter + 1,
                 pending := dictSet s.pending (pyStr s.counter)
                     (mkApplication data (pyStr s.counter) now) } := by
      unfold webhook_handler; rw [hval]
    rw [he]
    exact inv_insert_pending s _ rfl rfl h

theorem inv_approve (s : FState) (app_id actorName : String) (app : FApp) (src : Bucket)
    (now : Nat) (h : Inv s) (hfind : findApplication s app_id = some (app, src)) :
    Inv { s with
      pending := if src = Bucket.pending then dictDel s.pending app_id else s.pending,
      rejected := if src = Bucket.rejected then dictDel s.rejected app_id else s.rejected,
      approved := dictSet s.approved app_id
        ({ app with approvedFlag := true,
                    processed_by := some actorName,
                    processed_time := some now }) } := by
  rcases findApplication_cases s app_id app src hfind with
      ⟨rfl, hp⟩ | ⟨rfl, hpn, ha⟩ | ⟨rfl, hpn, han, hr⟩
  · rw [if_pos rfl, if_neg (by decide : ¬(Bucket.pending = Bucket.rejected))]
    obtain ⟨n0, hn1, hn2, hkey⟩ := h.boundP _ (dictGet_mem hp)
    refine ⟨h.counterPos, keysNodup_dictDel _ h.nodupP, keysNodup_dictSet _ _ h.nodupA,
      h.nodupR, ?_, ?_, ?_, ?_, ?_, h.boundR, ?_, ?_, h.procR⟩
    · intro p hp' q hq
      rcases mem_dictSet hq with rfl | hq'
      · exact mem_dictDel_key_ne h.nodupP app_id p hp'
      · exact h.disjPA p (mem_dictDel hp') q hq'
    · intro p hp' q hq
      exact h.disjPR p (mem_dictDel hp') q hq
    · intro p hp' q hq
      rcases mem_dictSet hp' with rfl | hp''
      · exact h.disjPR _ (dictGet_mem hp) q hq
      · exact h.disjAR p hp'' q hq
    · intro p hp'
      exact h.boundP p (mem_dictDel hp')
    · intro p hp'
      rcases mem_dictSet hp' with rfl | hp''
      · exact ⟨n0, hn1, hn2, hkey⟩
      · exact h.boundA p hp''
    · intro p hp'
      exact h.unprocP p (mem_dictDel hp')
    · intro p hp'
      rcases mem_dictSet hp' with rfl | hp''
      · exact ⟨rfl, rfl⟩
      · exact h.procA p hp''
  · rw [if_neg (by decide : ¬(Bucket.approved = Bucket.pending)),
      if_neg (by decide : ¬(Bucket.approved = Bucket.rejected))]
    obtain ⟨n0, hn1, hn2, hkey⟩ := h.boundA _ (dictGet_mem ha)
    refine ⟨h.counterPos, h.nodupP, keysNodup_dictSet _ _ h.nodupA, h.nodupR,
      ?_, h.disjPR, ?_, h.boundP, ?_, h.boundR, h.unprocP, ?_, h.procR⟩
    · intro p hp' q hq
      rcases mem_dictSet hq with rfl | hq'
      · exact (dictGet_none_iff _ _).mp hpn p hp'
      · exact h.disjPA p hp' q hq'
    · intro p hp' q hq
      rcases mem_dictSet hp' with rfl | hp''
      · exact h.disjAR _ (dictGet_mem ha) q hq
      · exact h.disjAR p hp'' q hq
    · intro p hp'
      rcases mem_dictSet hp' with rfl | hp''
      · exact ⟨n0, hn1, hn2, hkey⟩
      · exact h.boundA p hp''
    · intro p hp'
      rcases mem_dictSet hp' with rfl | hp''
      · exact ⟨rfl, rfl⟩
      · exact h.procA p hp''
  · rw [if_neg (by decide : ¬(Bucket.rejected = Bucket.pending)), if_pos rfl]
    obtain ⟨n0, hn1, hn2, hkey⟩ := h.boundR _ (dictGet_mem hr)
    refine ⟨h.counterPos, h.nodupP, keysNodup_dictSet _ _ h.nodupA,
      keysNodup_dictDel _ h.nodupR, ?_, ?_, ?_, h.boundP, ?_, ?_, h.unprocP, ?_, ?_⟩
    · intro p hp' q hq
      rcases mem_dictSet hq with rfl | hq'
      · exact (dictGet_none_iff _ _).mp hpn p hp'
      · exact h.disjPA p hp' q hq'
    · intro p hp' q hq
      exact h.disjPR p hp' q (mem_dictDel hq)
    · intro p hp' q hq
      rcases mem_dictSet hp' with rfl | hp''
      · exact fun heq => mem_dictDel_key_ne h.nodupR app_id q hq heq.symm
      · exact h.disjAR p hp'' q (mem_dictDel hq)
    · intro p hp'
      rcases mem_dictSet hp' with rfl | hp''
      · exact ⟨n0, hn1, hn2, hkey⟩
      · exact h.boundA p hp''
    · intro p hp'
      exact h.boundR p (mem_dictDel hp')
    · intro p hp'
      rcases mem_dictSet hp' with rfl | hp''
      · exact ⟨rfl, rfl⟩
      · exact h.procA p hp''
    · intro p hp'
      exact h.procR p (mem_dictDel hp')

theorem inv_reject (s : FState) (app_id actorName : String) (app : FApp) (src : Bucket)
    (now : Nat) (h : Inv s) (hfind : findApplication s app_id = some (app, src)) :
    Inv { s with
      pending := if src = Bucket.pending then dictDel s.pending app_id else s.pending,
      approved := if src = Bucket.approved then dictDel s.approved app_id else s.approved,
      rejected := dictSet s.rejected app_id
        ({ app with rejectedFlag := true,
                    processed_by := some actorName,
                    processed_time := some now }) } := by
  rcases findApplication_cases s app_id app src hfind with
      ⟨rfl, hp⟩ | ⟨rfl, hpn, ha⟩ | ⟨rfl, hpn, han, hr⟩
  · rw [if_pos rfl, if_neg (by decide : ¬(Bucket.pending = Bucket.approved))]
    obtain ⟨n0, hn1, hn2, hkey⟩ := h.boundP _ (dictGet_mem hp)
    refine ⟨h.counterPos, keysNodup_dictDel _ h.nodupP, h.nodupA,
      keysNodup_dictSet _ _ h.nodupR, ?_, ?_, ?_, ?_, h.boundA, ?_, ?_, h.procA, ?_⟩
    · intro p hp' q hq
      exact h.disjPA p (mem_dictDel hp') q hq
    · intro p hp' q hq
      rcases mem_dictSet hq with rfl | hq'
      · exact mem_dictDel_key_ne h.nodupP app_id p hp'
      · exact h.disjPR p (mem_dictDel hp') q hq'
    · intro p hp' q hq
      rcases mem_dictSet hq with rfl | hq'
      · exact fun heq => h.disjPA _ (dictGet_mem hp) p hp' heq.symm
      · exact h.disjAR p hp' q hq'
    · intro p hp'
      exact h.boundP p (mem_dictDel hp')
    · intro p hp'
      rcases mem_dictSet hp' with rfl | hp''
      · exact ⟨n0, hn1, hn2, hkey⟩
      · exact h.boundR p hp''
    · intro p hp'
      exact h.unprocP p (mem_dictDel hp')
    · intro p hp'
      rcases mem_dictSet hp' with rfl | hp''
      · exact ⟨rfl, rfl⟩
      · exact h.procR p hp''
  · rw [if_neg (by decide : ¬(Bucket.approved = Bucket.pending)), if_pos rfl]
    obtain ⟨n0, hn1, hn2, hkey⟩ := h.boundA _ (dictGet_mem ha)
    refine ⟨h.counterPos, h.nodupP, keysNodup_dictDel _ h.nodupA,
      keysNodup_dictSet _ _ h.nodupR, ?_, ?_, ?_, h.boundP, ?_, ?_, h.unprocP, ?_, ?_⟩
    · intro p hp' q hq
      exact h.disjPA p hp' q (mem_dictDel hq)
    · intro p hp' q hq
      rcases mem_dictSet hq with rfl | hq'
      · exact (dictGet_none_iff _ _).mp hpn p hp'
      · exact h.disjPR p hp' q hq'
    · intro p hp' q hq
      rcases mem_dictSet hq with rfl | hq'
      · exact mem_dictDel_key_ne h.nodupA app_id p hp'
      · exact h.disjAR p (mem_dictDel hp') q hq'
    · intro p hp'
      exact h.boundA p (mem_dictDel hp')
    · intro p hp'
      rcases mem_dictSet hp' with rfl | hp''
      · exact ⟨n0, hn1, hn2, hkey⟩
      · exact h.boundR p hp''
    · intro p hp'
      exact h.procA p (mem_dictDel hp')
    · intro p hp'
      rcases mem_dictSet hp' with rfl | hp''
      · exact ⟨rfl, rfl⟩
      · exact h.procR p hp''
  · rw [if_neg (by decide : ¬(Bucket.rejected = Bucket.pending)),
      if_neg (by decide : ¬(Bucket.rejected = Bucket.approved))]
    obtain ⟨n0, hn1, hn2, hkey⟩ := h.boundR _ (dictGet_mem hr)
    refine ⟨h.counterPos, h.nodupP, h.nodupA, keysNodup_dictSet _ _ h.nodupR,
      h.disjPA, ?_, ?_, h.boundP, h.boundA, ?_, h.unprocP, h.procA, ?_⟩
    · intro p hp' q hq
      rcases mem_dictSet hq with rfl | hq'
      · exact (dictGet_none_iff _ _).mp hpn p hp'
      · exact h.disjPR p hp' q hq'
    · intro p hp' q hq
      rcases mem_dictSet hq with rfl | hq'
      · exact h.disjAR p hp' (app_id, app) (dictGet_mem hr)
      · exact h.disjAR p hp' q hq'
    · intro p hp'
      rcases mem_dictSet hp' with rfl | hp''
      · exact ⟨n0, hn1, hn2, hkey⟩
      · exact h.boundR p hp''
    · intro p hp'
      rcases mem_dictSet hp' with rfl | hp''
      · exact ⟨rfl, rfl⟩
      · exact h.procR p hp''

theorem inv_delete_pending (s : FState) (app_id : String) (h : Inv s) :
    Inv { s with pending := dictDel s.pending app_id } := by
  refine ⟨h.counterPos, keysNodup_dictDel _ h.nodupP, h.nodupA, h.nodupR,
    ?_, ?_, h.disjAR, ?_, h.boundA, h.boundR, ?_, h.procA, h.procR⟩
  · exact fun p hp q hq => h.disjPA p (mem_dictDel hp) q hq
  · exact fun p hp q hq => h.disjPR p (mem_dictDel hp) q hq
  · exact fun p hp => h.boundP p (mem_dictDel hp)
  · exact fun p hp => h.unprocP p (mem_dictDel hp)

theorem inv_delete_approved (s : FState) (app_id : String) (h : Inv s) :
    Inv { s with approved := dictDel s.approved app_id } := by
  refine ⟨h.counterPos, h.nodupP, keysNodup_dictDel _ h.nodupA, h.nodupR,
    ?_, h.disjPR, ?_, h.boundP, ?_, h.boundR, h.unprocP, ?_, h.procR⟩
  · exact fun p hp q hq => h.disjPA p hp q (mem_dictDel hq)
  · exact fun p hp q hq => h.disjAR p (mem_dictDel hp) q hq
  · exact fun p hp => h.boundA p (mem_dictDel hp)
  · exact fun p hp => h.procA p (mem_dictDel hp)

theorem inv_delete_rejected (s : FState) (app_id : String) (h : Inv s) :
    Inv { s with rejected := dictDel s.rejected app_id } := by
  refine ⟨h.counterPos, h.nodupP, h.nodupA, keysNodup_dictDel _ h.nodupR,
    h.disjPA, ?_, ?_, h.boundP, h.boundA, ?_, h.unprocP, h.procA, ?_⟩
  · exact fun p hp q hq => h.disjPR p hp q (mem_dictDel hq)
  · exact fun p hp q hq => h.disjAR p hp q (mem_dictDel hq)
  · exact fun p hp => h.boundR p (mem_dictDel hp)
  · exact fun p hp => h.procR p (mem_dictDel hp)

theorem inv_button (admins : List Int) (s : FState) (actor : Int) (actorName : String)
    (action : FAction) (app_id : String) (now : Nat) (h : Inv s) :
    Inv (button_handler admins s actor actorName action app_id now).1 := by
  unfold button_handler
  by_cases hadm : actor ∈ admins
  · rw [if_pos hadm]
    cases hfind : findApplication s app_id with
    | none => exact h
    | some pr =>
      obtain ⟨app, src⟩ := pr
      cases action with
      | approve => exact inv_approve s app_id actorName app src now h hfind
      | reject => exact inv_reject s app_id actorName app src now h hfind
      | details => exact h
      | delete =>
        cases src with
        | pending => exact inv_delete_pending s app_id h
        | approved => exact inv_delete_approved s app_id h
        | rejected => exact inv_delete_rejected s app_id h
  · rw [if_neg hadm]
    exact h

theorem inv_reachable (s : FState) (h : FReachable s) : Inv s := by
  induction h with
  | init => exact inv_init
  | step hr hstep ih =>
    cases hstep with
      | submit data now => exact inv_webhook _ data now ih
      | button admins actor actorName action app_id now =>
        exact inv_button admins _ actor actorName action app_id now ih

end Flask

/-! ## Claim C2 -/

/-- C2 (amended): in every reachable Flask store state, each application
id is in at most one of the three buckets, every pending record has
`processed_by` and `processed_time` unset, and every approved or
rejected record has both set — but the `approved`/`rejected` boolean
markers on the record are never cleared on re-decision, so they are not
mutually exclusive (see the counterexample). -/
theorem c2_invariant (s : Flask.FState) (h : Flask.FReachable s) :
    (∀ id, ¬((dictGet s.pending id).isSome ∧ (dictGet s.approved id).isSome)) ∧
    (∀ id, ¬((dictGet s.pending id).isSome ∧ (dictGet s.rejected id).isSome)) ∧
    (∀ id, ¬((dictGet s.approved id).isSome ∧ (dictGet s.rejected id).isSome)) ∧
    (∀ p ∈ s.pending, p.2.processed_by = none ∧ p.2.processed_time = none) ∧
    (∀ p ∈ s.approved, p.2.processed_by.isSome ∧ p.2.processed_time.isSome) ∧
    (∀ p ∈ s.rejected, p.2.processed_by.isSome ∧ p.2.processed_time.isSome) := by
  have inv := Flask.inv_reachable s h
  refine ⟨?_, ?_, ?_, inv.unprocP, inv.procA, inv.procR⟩
  · rintro id ⟨h1, h2⟩
    obtain ⟨p, hp, hpk⟩ := (dictGet_isSome_iff _ _).mp h1
    obtain ⟨q, hq, hqk⟩ := (dictGet_isSome_iff _ _).mp h2
    exact inv.disjPA p hp q hq (hpk.trans hqk.symm)
  · rintro id ⟨h1, h2⟩
    obtain ⟨p, hp, hpk⟩ := (dictGet_isSome_iff _ _).mp h1
    obtain ⟨q, hq, hqk⟩ := (dictGet_isSome_iff _ _).mp h2
    exact inv.disjPR p hp q hq (hpk.trans hqk.symm)
  · rintro id ⟨h1, h2⟩
    obtain ⟨p, hp, hpk⟩ := (dictGet_isSome_iff _ _).mp h1
    obtain ⟨q, hq, hqk⟩ := (dictGet_isSome_iff _ _).mp h2
    exact inv.disjAR p hp q hq (hpk.trans hqk.symm)

/-- C2 counterexample: after approve (Alice, 200) then reject
(Alice, 300) on application "1", the record now stored in the rejected
bucket carries BOTH markers — `approved = True` was never cleared — so
the claimed mutual exclusion of the markers is false. -/
theorem c2_counterexample :
    (dictGet Flask.state3.rejected "1").map Flask.FApp.approvedFlag = some true ∧
    (dictGet Flask.state3.rejected "1").map Flask.FApp.rejectedFlag = some true := by
  decide

/-- Witness for `c2_invariant` at the reachable two-step state
`state2`. -/
theorem c2_witness :
    ¬((dictGet Flask.state2.pending "1").isSome ∧
      (dictGet Flask.state2.approved "1").isSome) :=
  (c2_invariant Flask.state2
    (Flask.FReachable.step
      (Flask.FReachable.step Flask.FReachable.init
        (Flask.FStep.submit Flask.initState Flask.sampleData 100))
      (Flask.FStep.button Flask.state1 [5, 6] 5 "Alice" .approve "1" 200))).1 "1"

/-! ## Lemmas about the relational store operations -/

namespace BotDB

theorem find?_id_map (f : BApp → BApp) (hf : ∀ a, (f a).id = a.id) (j : String) :
    ∀ l : List BApp,
      (l.map f).find? (fun a => a.id == j) =
        (l.find? (fun a => a.id == j)).map f
  | [] => rfl
  | a :: l => by
    by_cases h : (a.id == j) = true
    · rw [List.map_cons,
        @List.find?_cons_of_pos _ (fun x => x.id == j) (f a) (l.map f)
          (by simpa [hf] using h),
        @List.find?_cons_of_pos _ (fun x => x.id == j) a l h]
      rfl
    · rw [List.map_cons,
        @List.find?_cons_of_neg _ (fun x => x.id == j) (f a) (l.map f)
          (by simpa [hf] using h),
        @List.find?_cons_of_neg _ (fun x => x.id == j) a l h]
      exact find?_id_map f hf j l

theorem get_application_update (s : BState) (i j : String) (st : BStatus) (now : Nat) :
    get_application (update_application_status s i st now) j =
      (get_application s j).map
        (fun a => if a.id == i then { a with status := st, updated_at := now } else a) := by
  unfold get_application update_application_status
  exact find?_id_map _ (fun a => by by_cases h : (a.id == i) = true <;> simp [h]) j
    s.applications

theorem editOthers_applications (actor : Int) (c : MsgContent) :
    ∀ (rows : List MsgRow) (s : BState),
      (editOthers actor c s rows).applications = s.applications
  | [], _ => rfl
  | r :: rest, s => by
    unfold editOthers
    by_cases h : r.chat_id ≠ actor <;>
      simp [h, editOthers_applications actor c rest, edit_message_text]

theorem editOthers_messages (actor : Int) (c : MsgContent) :
    ∀ (rows : List MsgRow) (s : BState),
      (editOthers actor c s rows).messages = s.messages
  | [], _ => rfl
  | r :: rest, s => by
    unfold editOthers
    by_cases h : r.chat_id ≠ actor <;>
      simp [h, editOthers_messages actor c rest, edit_message_text]

end BotDB

/-! ## Claim C3 -/

/-- C3 (amended): re-invoking approve on an already-approved application
is not rejected with an error — in the Flask variant the handler
succeeds again and overwrites `processed_by` and `processed_time` with
the second actor and time (symmetrically for reject on an
already-rejected application), and in the relational variant the handler
likewise reports success and rewrites the row, refreshing
`updated_at`. -/
theorem c3_reapprove_overwrites (admins : List Int) (actor : Int) (hadm : actor ∈ admins) :
    (∀ (s : Flask.FState) (actorName app_id : String) (app : Flask.FApp) (now : Nat),
      dictGet s.pending app_id = none →
      dictGet s.approved app_id = some app →
      Flask.button_handler admins s actor actorName .approve app_id now =
        ({ s with approved := dictSet s.approved app_id
                      ({ app with approvedFlag := true,
                                  processed_by := some actorName,
                                  processed_time := some now }) },
         .approvedOk)) ∧
    (∀ (s : Flask.FState) (actorName app_id : String) (app : Flask.FApp) (now : Nat),
      dictGet s.pending app_id = none →
      dictGet s.approved app_id = none →
      dictGet s.rejected app_id = some app →
      Flask.button_handler admins s actor actorName .reject app_id now =
        ({ s with rejected := dictSet s.rejected app_id
                      ({ app with rejectedFlag := true,
                                  processed_by := some actorName,
                                  processed_time := some now }) },
         .rejectedOk)) ∧
    (∀ (s : BotDB.BState) (app_id : String) (app : BotDB.BApp) (cbChat : Int)
        (cbMsg : Nat) (now : Nat),
      BotDB.get_application s app_id = some app →
      app.status = .approved →
      (BotDB.button_handler admins s actor .approve app_id cbChat cbMsg now).2 =
          .done .approved ∧
      BotDB.get_application
          (BotDB.button_handler admins s actor .approve app_id cbChat cbMsg now).1 app_id =
        some { app with status := .approved, updated_at := now }) := by
  refine ⟨?_, ?_, ?_⟩
  · intro s actorName app_id app now hp ha
    unfold Flask.button_handler Flask.findApplication
    rw [if_pos hadm, hp, ha]
    rfl
  · intro s actorName app_id app now hp ha hr
    unfold Flask.button_handler Flask.findApplication
    rw [if_pos hadm, hp, ha, hr]
    rfl
  · intro s app_id app cbChat cbMsg now hget hst
    have hget2 : s.applications.find? (fun a => a.id == app_id) = some app := hget
    have hid := List.find?_some hget2
    constructor
    · unfold BotDB.button_handler
      rw [if_pos hadm, hget]
    · unfold BotDB.button_handler
      rw [if_pos hadm, hget]
      show BotDB.get_application
        (BotDB.editOthers actor _ (BotDB.edit_message_text
          (BotDB.update_application_status s app_id .approved now) cbChat cbMsg _) _) app_id =
        _
      unfold BotDB.get_application
      rw [BotDB.editOthers_applications]
      show BotDB.get_application
        (BotDB.update_application_status s app_id .approved now) app_id = _
      rw [BotDB.get_application_update, hget]
      simp [hid]
      intro hne
      exact absurd (by simpa using hid) hne

/-- C3 counterexample: on the Flask store, admin 6 ("Bob") re-approves
the application already approved by admin 5 ("Alice" at time 200); the
handler answers success (not an error) and `processed_by` /
`processed_time` are overwritten with Bob / 400. -/
theorem c3_counterexample :
    (Flask.button_handler [5, 6] Flask.state2 6 "Bob" .approve "1" 400).2 = .approvedOk ∧
    (dictGet (Flask.button_handler [5, 6] Flask.state2 6 "Bob" .approve "1" 400).1.approved
        "1").map Flask.FApp.processed_by = some (some "Bob") ∧
    (dictGet (Flask.button_handler [5, 6] Flask.state2 6 "Bob" .approve "1" 400).1.approved
        "1").map Flask.FApp.processed_time = some (some 400) ∧
    (dictGet Flask.state2.approved "1").map Flask.FApp.processed_by = some (some "Alice") ∧
    (dictGet Flask.state2.approved "1").map Flask.FApp.processed_time = some (some 200) := by
  decide

/-- Witness for `c3_reapprove_overwrites` on the sample trace: the
re-approval of application "1" by Bob at time 400, and the relational
re-approval of APP-0001. -/
theorem c3_witness :
    Flask.button_handler [5, 6] Flask.state2 6 "Bob" .approve "1" 400 =
      ({ Flask.state2 with approved := dictSet Flask.state2.approved "1"
                               ({ Flask.sampleApprovedApp with approvedFlag := true,
                                                               processed_by := some "Bob",
                                                               processed_time := some 400 }) },
       .approvedOk) ∧
    (BotDB.button_handler [1] BotDB.bstateApproved 1 .approve "APP-0001" 1 0 50).2 =
      .done .approved :=
  ⟨(c3_reapprove_overwrites [5, 6] 6 (by decide)).1 Flask.state2 "Bob" "1"
      Flask.sampleApprovedApp 400 (by decide) (by decide),
   ((c3_reapprove_overwrites [1] 1 (by decide)).2.2 BotDB.bstateApproved "APP-0001"
      BotDB.approvedRow 1 0 50 (by decide) rfl).1⟩

/-! ## Further lemmas about the relational store -/

namespace BotDB

theorem mem_save_message :
    ∀ {rows : List MsgRow} {app_id : String} {chat : Int} {mid : Nat} {r : MsgRow},
      r ∈ save_message rows app_id chat mid → r = ⟨app_id, chat, mid⟩ ∨ r ∈ rows := by
  intro rows
  induction rows with
  | nil =>
    intro app_id chat mid r h
    simp only [save_message, List.mem_singleton] at h
    exact Or.inl h
  | cons q rest ih =>
    intro app_id chat mid r h
    by_cases hc : q.application_id = app_id ∧ q.chat_id = chat
    · simp only [save_message, if_pos hc] at h
      rcases List.mem_cons.mp h with rfl | h
      · exact Or.inl rfl
      · exact Or.inr (List.mem_cons_of_mem _ h)
    · simp only [save_message, if_neg hc] at h
      rcases List.mem_cons.mp h with rfl | h
      · exact Or.inr (List.mem_cons_self _ _)
      · rcases ih h with h | h
        · exact Or.inl h
        · exact Or.inr (List.mem_cons_of_mem _ h)

theorem lookupRef_save_self (rows : List MsgRow) (app_id : String) (chat : Int) (mid : Nat) :
    lookupRef (save_message rows app_id chat mid) app_id chat = some mid := by
  induction rows with
  | nil => simp [save_message, lookupRef]
  | cons q rest ih =>
    by_cases hc : q.application_id = app_id ∧ q.chat_id = chat
    · simp [save_message, lookupRef, hc]
    · simp [save_message, lookupRef, hc, ih]

theorem lookupRef_save_other (rows : List MsgRow) (app_id : String) (chat : Int) (mid : Nat)
    (a : String) (c : Int) (h : ¬(app_id = a ∧ chat = c)) :
    lookupRef (save_message rows app_id chat mid) a c = lookupRef rows a c := by
  induction rows with
  | nil =>
    simp only [save_message, lookupRef]
    rw [if_neg h]
  | cons q rest ih =>
    by_cases hc : q.application_id = app_id ∧ q.chat_id = chat
    · have hq : ¬(q.application_id = a ∧ q.chat_id = c) := by
        rintro ⟨h1, h2⟩
        exact h ⟨hc.1 ▸ h1, hc.2 ▸ h2⟩
      simp only [save_message, if_pos hc, lookupRef]
      rw [if_neg (fun hx => h hx), if_neg hq]
    · simp only [save_message, if_neg hc, lookupRef]
      by_cases hq : q.application_id = a ∧ q.chat_id = c
      · rw [if_pos hq, if_pos hq]
      · rw [if_neg hq, if_neg hq, ih]

theorem msgsNodup_save (rows : List MsgRow) (app_id : String) (chat : Int) (mid : Nat)
    (h : MsgsNodup rows) : MsgsNodup (save_message rows app_id chat mid) := by
  induction rows with
  | nil => simp [save_message, MsgsNodup]
  | cons q rest ih =>
    rcases List.pairwise_cons.mp h with ⟨hhead, htail⟩
    by_cases hc : q.application_id = app_id ∧ q.chat_id = chat
    · unfold MsgsNodup
      simp only [save_message, if_pos hc]
      refine List.pairwise_cons.mpr ⟨?_, htail⟩
      intro r hr
      have := hhead r hr
      rcases this with h1 | h2
      · exact Or.inl (hc.1 ▸ h1)
      · exact Or.inr (hc.2 ▸ h2)
    · unfold MsgsNodup
      simp only [save_message, if_neg hc]
      refine List.pairwise_cons.mpr ⟨?_, ih htail⟩
      intro r hr
      rcases mem_save_message hr with rfl | hr'
      · by_cases h1 : q.application_id = app_id
        · exact Or.inr (fun h2 => hc ⟨h1, h2⟩)
        · exact Or.inl h1
      · exact hhead r hr'

theorem save_message_length (rows : List MsgRow) (app_id : String) (chat : Int) (mid : Nat)
    (h : (lookupRef rows app_id chat).isSome) :
    (save_message rows app_id chat mid).length = rows.length := by
  induction rows with
  | nil => simp [lookupRef] at h
  | cons q rest ih =>
    by_cases hc : q.application_id = app_id ∧ q.chat_id = chat
    · simp [save_message, hc]
    · simp only [lookupRef, if_neg hc] at h
      simp [save_message, hc, ih h]

theorem editAll_state (c : MsgContent) :
    ∀ (rows : List MsgRow) (s : BState),
      (editAll c s rows).applications = s.applications ∧
      (editAll c s rows).messages = s.messages ∧
      (editAll c s rows).counter = s.counter ∧
      (editAll c s rows).queue = s.queue
  | [], _ => ⟨rfl, rfl, rfl, rfl⟩
  | _ :: rest, _ => editAll_state c rest _

theorem editOthers_state (actor : Int) (c : MsgContent) :
    ∀ (rows : List MsgRow) (s : BState),
      (editOthers actor c s rows).applications = s.applications ∧
      (editOthers actor c s rows).messages = s.messages ∧
      (editOthers actor c s rows).counter = s.counter ∧
      (editOthers actor c s rows).queue = s.queue
  | [], _ => ⟨rfl, rfl, rfl, rfl⟩
  | r :: rest, s => by
    unfold editOthers
    by_cases h : r.chat_id ≠ actor
    · rw [if_pos h]
      exact editOthers_state actor c rest _
    · rw [if_neg h]
      exact editOthers_state actor c rest s

theorem fanout_state (sendOk : Int → Bool) (app_id : String) :
    ∀ (admins : List Int) (s : BState),
      (fanout sendOk app_id s admins).applications = s.applications ∧
      (fanout sendOk app_id s admins).counter = s.counter ∧
      (fanout sendOk app_id s admins).queue = s.queue
  | [], _ => ⟨rfl, rfl, rfl⟩
  | admin :: rest, s => by
    unfold fanout
    by_cases h : sendOk admin = true
    · rw [if_pos h]
      exact fanout_state sendOk app_id rest _
    · rw [if_neg h]
      exact fanout_state sendOk app_id rest s

theorem fanout_msgsNodup (sendOk : Int → Bool) (app_id : String) :
    ∀ (admins : List Int) (s : BState), MsgsNodup s.messages →
      MsgsNodup (fanout sendOk app_id s admins).messages
  | [], _, h => h
  | admin :: rest, s, h => by
    unfold fanout
    by_cases hs : sendOk admin = true
    · rw [if_pos hs]
      exact fanout_msgsNodup sendOk app_id rest _ (msgsNodup_save _ _ _ _ h)
    · rw [if_neg hs]
      exact fanout_msgsNodup sendOk app_id rest s h

theorem get_application_append (s : BState) (row : BApp) (j : String) :
    get_application { s with applications := s.applications ++ [row] } j =
      ((get_application s j).or (if (row.id == j) = true then some row else none)) := by
  unfold get_application
  simp only
  rw [List.find?_append]
  cases h : List.find? (fun a => a.id == j) s.applications with
  | some a => rfl
  | none =>
    by_cases hr : (row.id == j) = true
    · simp [List.find?, hr]
    · simp [List.find?, hr]

theorem get_application_eq_of {t s : BState} (h : t.applications = s.applications)
    (j : String) : get_application t j = get_application s j := by
  unfold get_application
  rw [h]

theorem appIdFmt_ne_of_lt {m n : Nat} (h : m < n) : appIdFmt n ≠ appIdFmt m :=
  fun he => absurd (appIdFmt_injective he) (by omega)

/-! ### Preservation of the relational store invariant -/

theorem binv_http (s : BState) (d tg : String) (now : Nat) (h : BInv s) :
    BInv (http_application_handler s d tg now).1 := by
  show BInv { applications := s.applications ++
                [⟨appIdFmt (s.counter + 1), .received, d, tg, now, now⟩],
              messages := s.messages, counter := s.counter + 1,
              queue := s.queue ++ [(appIdFmt (s.counter + 1), .website)],
              chats := s.chats, nextMsgId := s.nextMsgId }
  refine ⟨?_, ?_, h.msgsNodup⟩
  · intro a ha
    rcases List.mem_append.mp ha with ha | ha
    · obtain ⟨n, h1, h2, h3⟩ := h.boundApp a ha
      exact ⟨n, h1, Nat.le_succ_of_le h2, h3⟩
    · rw [List.mem_singleton.mp ha]
      exact ⟨s.counter + 1, Nat.succ_le_succ (Nat.zero_le _), Nat.le_refl _, rfl⟩
  · intro q hq
    rcases List.mem_append.mp hq with hq | hq
    · obtain ⟨n, h1, h2, h3⟩ := h.boundQueue q hq
      exact ⟨n, h1, Nat.le_succ_of_le h2, h3⟩
    · rw [List.mem_singleton.mp hq]
      exact ⟨s.counter + 1, Nat.succ_le_succ (Nat.zero_le _), Nat.le_refl _, rfl⟩

theorem binv_chat (s : BState) (text : String) (now : Nat) (h : BInv s) :
    BInv (handle_application s text now).1 := by
  by_cases hm : pyContains text applicationMarker = true
  · cases hext : extractTelegram text with
    | none =>
      have he : (handle_application s text now).1 = { s with counter := s.counter + 1 } := by
        unfold handle_application
        rw [if_pos hm, hext]
        rfl
      rw [he]
      refine ⟨?_, ?_, h.msgsNodup⟩
      · intro a ha
        obtain ⟨n, h1, h2, h3⟩ := h.boundApp a ha
        exact ⟨n, h1, Nat.le_succ_of_le h2, h3⟩
      · intro q hq
        obtain ⟨n, h1, h2, h3⟩ := h.boundQueue q hq
        exact ⟨n, h1, Nat.le_succ_of_le h2, h3⟩
    | some tg =>
      have he : (handle_application s text now).1 =
          { applications := s.applications ++
                [⟨appIdFmt (s.counter + 1), .pending, text, tg, now, now⟩],
            messages := s.messages, counter := s.counter + 1,
            queue := s.queue ++ [(appIdFmt (s.counter + 1), .telegramSrc)],
            chats := s.chats, nextMsgId := s.nextMsgId } := by
        unfold handle_application
        rw [if_pos hm, hext]
        rfl
      rw [he]
      refine ⟨?_, ?_, h.msgsNodup⟩
      · intro a ha
        rcases List.mem_append.mp ha with ha | ha
        · obtain ⟨n, h1, h2, h3⟩ := h.boundApp a ha
          exact ⟨n, h1, Nat.le_succ_of_le h2, h3⟩
        · rw [List.mem_singleton.mp ha]
          exact ⟨s.counter + 1, Nat.succ_le_succ (Nat.zero_le _), Nat.le_refl _, rfl⟩
      · intro q hq
        rcases List.mem_append.mp hq with hq | hq
        · obtain ⟨n, h1, h2, h3⟩ := h.boundQueue q hq
          exact ⟨n, h1, Nat.le_succ_of_le h2, h3⟩
        · rw [List.mem_singleton.mp hq]
          exact ⟨s.counter + 1, Nat.succ_le_succ (Nat.zero_le _), Nat.le_refl _, rfl⟩
  · have he : (handle_application s text now).1 = s := by
      unfold handle_application
      rw [if_neg hm]
    rwa [he]

theorem binv_update (s : BState) (i : String) (st : BStatus) (now : Nat) (h : BInv s) :
    BInv (update_application_status s i st now) := by
  refine ⟨?_, h.boundQueue, h.msgsNodup⟩
  intro a ha
  obtain ⟨b, hb, rfl⟩ := List.mem_map.mp ha
  obtain ⟨n, h1, h2, h3⟩ := h.boundApp b hb
  by_cases hbi : (b.id == i) = true
  · exact ⟨n, h1, h2, by simp only [if_pos hbi]; exact h3⟩
  · exact ⟨n, h1, h2, by simp only [if_neg hbi]; exact h3⟩

theorem binv_process (admins : List Int) (sendOk : Int → Bool) (now : Nat)
    (s : BState) (h : BInv s) : BInv (process_one admins sendOk now s) := by
  cases hq : s.queue with
  | nil =>
    have he : process_one admins sendOk now s = s := by
      unfold process_one
      rw [hq]
    rwa [he]
  | cons hd rest =>
    obtain ⟨a_id, src⟩ := hd
    have hqsub : BInv { s with queue := rest } := by
      refine ⟨h.boundApp, ?_, h.msgsNodup⟩
      intro q hqm
      exact h.boundQueue q (by rw [hq]; exact List.mem_cons_of_mem _ hqm)
    cases happ : get_application { s with queue := rest } a_id with
    | none =>
      have he : process_one admins sendOk now s = { s with queue := rest } := by
        simp only [process_one, hq, happ]
      rwa [he]
    | some app =>
      have he : process_one admins sendOk now s =
          update_application_status (fanout sendOk a_id { s with queue := rest } admins)
            a_id .pending now := by
        simp only [process_one, hq, happ]
      rw [he]
      obtain ⟨hfa, hfc, hfq⟩ := fanout_state sendOk a_id admins { s with queue := rest }
      refine binv_update _ _ _ _ ⟨?_, ?_, ?_⟩
      · intro a ha
        rw [hfa] at ha
        obtain ⟨n, h1, h2, h3⟩ := hqsub.boundApp a ha
        rw [hfc]
        exact ⟨n, h1, h2, h3⟩
      · intro q hqm
        rw [hfq] at hqm
        obtain ⟨n, h1, h2, h3⟩ := hqsub.boundQueue q hqm
        rw [hfc]
        exact ⟨n, h1, h2, h3⟩
      · exact fanout_msgsNodup sendOk a_id admins _ hqsub.msgsNodup

theorem binv_edit (s : BState) (chat : Int) (mid : Nat) (c : MsgContent) (h : BInv s) :
    BInv (edit_message_text s chat mid c) :=
  ⟨h.boundApp, h.boundQueue, h.msgsNodup⟩

theorem binv_send (s : BState) (chat : Int) (c : MsgContent) (h : BInv s) :
    BInv (send_message s chat c).1 :=
  ⟨h.boundApp, h.boundQueue, h.msgsNodup⟩

theorem binv_button (admins : List Int) (s : BState) (actor : Int) (action : BAction)
    (app_id : String) (cbChat : Int) (cbMsg : Nat) (now : Nat) (h : BInv s) :
    BInv (button_handler admins s actor action app_id cbChat cbMsg now).1 := by
  unfold button_handler
  by_cases hadm : actor ∈ admins
  · rw [if_pos hadm]
    cases hget : get_application s app_id with
    | none => exact binv_edit s cbChat cbMsg _ h
    | some app =>
      cases action with
      | view => exact binv_edit s cbChat cbMsg _ h
      | approve =>
        show BInv (editOthers actor _ _ _)
        obtain ⟨ha1, ha2, ha3, ha4⟩ := editOthers_state actor
          (MsgContent.approvedNotice app_id app.application_data)
          (get_application_messages
            (edit_message_text (update_application_status s app_id .approved now)
              cbChat cbMsg (MsgContent.approvedNotice app_id app.application_data)) app_id)
          (edit_message_text (update_application_status s app_id .approved now)
            cbChat cbMsg (MsgContent.approvedNotice app_id app.application_data))
        have hb := binv_edit _ cbChat cbMsg
          (MsgContent.approvedNotice app_id app.application_data)
          (binv_update s app_id .approved now h)
        exact ⟨by rw [ha1, ha3]; exact hb.boundApp, by rw [ha4, ha3]; exact hb.boundQueue,
          by rw [ha2]; exact hb.msgsNodup⟩
      | reject =>
        show BInv (editOthers actor _ _ _)
        obtain ⟨ha1, ha2, ha3, ha4⟩ := editOthers_state actor
          (MsgContent.rejectedNotice app_id app.application_data)
          (get_application_messages
            (edit_message_text (update_application_status s app_id .rejected now)
              cbChat cbMsg (MsgContent.rejectedNotice app_id app.application_data)) app_id)
          (edit_message_text (update_application_status s app_id .rejected now)
            cbChat cbMsg (MsgContent.rejectedNotice app_id app.application_data))
        have hb := binv_edit _ cbChat cbMsg
          (MsgContent.rejectedNotice app_id app.application_data)
          (binv_update s app_id .rejected now h)
        exact ⟨by rw [ha1, ha3]; exact hb.boundApp, by rw [ha4, ha3]; exact hb.boundQueue,
          by rw [ha2]; exact hb.msgsNodup⟩
  · rw [if_neg hadm]
    exact binv_edit s cbChat cbMsg _ h

theorem binv_review (admins : List Int) (s : BState) (actor : Int) (app_id : String)
    (h : BInv s) : BInv (review_command admins s actor app_id) := by
  unfold review_command
  by_cases hadm : actor ∈ admins
  · rw [if_pos hadm]
    cases hget : get_application s app_id with
    | none => exact ⟨h.boundApp, h.boundQueue, h.msgsNodup⟩
    | some app => exact ⟨h.boundApp, h.boundQueue, h.msgsNodup⟩
  · rw [if_neg hadm]
    exact h

theorem binv_command (admins : List Int) (s : BState) (actor : Int) (action : BAction)
    (app_id : String) (now : Nat) (h : BInv s) :
    BInv (process_application_action admins s actor action app_id now) := by
  unfold process_application_action
  by_cases hadm : actor ∈ admins
  · rw [if_pos hadm]
    cases hget : get_application s app_id with
    | none => exact ⟨h.boundApp, h.boundQueue, h.msgsNodup⟩
    | some app =>
      cases action with
      | view => exact h
      | approve =>
        obtain ⟨ha1, ha2, ha3, ha4⟩ := editAll_state
          (MsgContent.approvedNotice app_id app.application_data)
          (get_application_messages (update_application_status s app_id .approved now) app_id)
          (update_application_status s app_id .approved now)
        have hb := binv_update s app_id .approved now h
        exact binv_send _ actor _
          ⟨by rw [ha1, ha3]; exact hb.boundApp, by rw [ha4, ha3]; exact hb.boundQueue,
           by rw [ha2]; exact hb.msgsNodup⟩
      | reject =>
        obtain ⟨ha1, ha2, ha3, ha4⟩ := editAll_state
          (MsgContent.rejectedNotice app_id app.application_data)
          (get_application_messages (update_application_status s app_id .rejected now) app_id)
          (update_application_status s app_id .rejected now)
        have hb := binv_update s app_id .rejected now h
        exact binv_send _ actor _
          ⟨by rw [ha1, ha3]; exact hb.boundApp, by rw [ha4, ha3]; exact hb.boundQueue,
           by rw [ha2]; exact hb.msgsNodup⟩
  · rw [if_neg hadm]
    exact h

theorem binv_init : BInv initB := by
  refine ⟨?_, ?_, ?_⟩ <;> simp [initB, MsgsNodup]

theorem binv_reachable (s : BState) (h : BReachable s) : BInv s := by
  induction h with
  | init => exact binv_init
  | step hr hstep ih =>
    cases hstep with
      | http d tg now => exact binv_http _ d tg now ih
      | chat text now => exact binv_chat _ text now ih
      | process admins sendOk now => exact binv_process admins sendOk now _ ih
      | button admins actor action app_id cbChat cbMsg now =>
        exact binv_button admins _ actor action app_id cbChat cbMsg now ih
      | review admins actor app_id => exact binv_review admins _ actor app_id ih
      | command admins actor action app_id now =>
        exact binv_command admins _ actor action app_id now ih

end BotDB

/-! ## Claim C9: terminal status never reverts to pending -/

namespace Flask

/-- Any button press leaves the pending bucket unchanged or deletes one
key from it, and never touches the counter. -/
theorem button_shape (admins : List Int) (s : FState) (actor : Int) (actorName : String)
    (action : FAction) (app_id : String) (now : Nat) :
    ((button_handler admins s actor actorName action app_id now).1.pending = s.pending ∨
     (button_handler admins s actor actorName action app_id now).1.pending =
       dictDel s.pending app_id) ∧
    (button_handler admins s actor actorName action app_id now).1.counter = s.counter := by
  unfold button_handler
  by_cases hadm : actor ∈ admins
  · rw [if_pos hadm]
    cases hfind : findApplication s app_id with
    | none => exact ⟨Or.inl rfl, rfl⟩
    | some pr =>
      obtain ⟨app, src⟩ := pr
      cases action with
      | approve =>
        cases src with
        | pending => exact ⟨Or.inr rfl, rfl⟩
        | approved => exact ⟨Or.inl rfl, rfl⟩
        | rejected => exact ⟨Or.inl rfl, rfl⟩
      | reject =>
        cases src with
        | pending => exact ⟨Or.inr rfl, rfl⟩
        | approved => exact ⟨Or.inl rfl, rfl⟩
        | rejected => exact ⟨Or.inl rfl, rfl⟩
      | details => exact ⟨Or.inl rfl, rfl⟩
      | delete =>
        cases src with
        | pending => exact ⟨Or.inr rfl, rfl⟩
        | approved => exact ⟨Or.inl rfl, rfl⟩
        | rejected => exact ⟨Or.inl rfl, rfl⟩
  · rw [if_neg hadm]
    exact ⟨Or.inl rfl, rfl⟩

/-- A submission either leaves the state unchanged or bumps the counter
and inserts one fresh key into the pending bucket. -/
theorem webhook_shape (s : FState) (data : JObj) (now : Nat) :
    (webhook_handler s data now).1 = s ∨
    ((webhook_handler s data now).1.counter = s.counter + 1 ∧
     (webhook_handler s data now).1.pending =
       dictSet s.pending (pyStr s.counter) (mkApplication data (pyStr s.counter) now)) := by
  cases hval : validateFields data required_fields with
  | bad400 f =>
    left
    unfold webhook_handler
    rw [hval]
  | exn =>
    left
    unfold webhook_handler
    rw [hval]
  | ok =>
    right
    constructor
    · unfold webhook_handler
      rw [hval]
    · unfold webhook_handler
      rw [hval]

/-- One operation preserves "this id is an already minted one and is
absent from the pending bucket". -/
theorem fstep_pending_preserved (id : String) {s t : FState} (hstep : FStep s t)
    (hb : ∃ n, 1 ≤ n ∧ n < s.counter ∧ id = pyStr n)
    (hnp : dictGet s.pending id = none) :
    (∃ n, 1 ≤ n ∧ n < t.counter ∧ id = pyStr n) ∧ dictGet t.pending id = none := by
  obtain ⟨n, h1, h2, h3⟩ := hb
  cases hstep with
  | submit data now =>
    rcases webhook_shape s data now with he | ⟨hc, hp⟩
    · rw [he]
      exact ⟨⟨n, h1, h2, h3⟩, hnp⟩
    · refine ⟨⟨n, h1, by rw [hc]; omega, h3⟩, ?_⟩
      rw [hp, dictGet_set_ne]
      · exact hnp
      · rw [h3]
        intro he2
        have := pyStr_injective he2
        omega
  | button admins actor actorName action app_id now =>
    obtain ⟨hsh, hc⟩ := button_shape admins s actor actorName action app_id now
    refine ⟨⟨n, h1, by rw [hc]; exact h2, h3⟩, ?_⟩
    rcases hsh with hp | hp
    · rw [hp]
      exact hnp
    · rw [hp, dictGet_none_iff]
      intro p hpm
      exact (dictGet_none_iff _ _).mp hnp p (mem_dictDel hpm)

end Flask

namespace BotDB

theorem find?_id_append (l : List BApp) (row : BApp) (j : String)
    (h : (row.id == j) = false) :
    (l ++ [row]).find? (fun a => a.id == j) = l.find? (fun a => a.id == j) := by
  rw [List.find?_append]
  cases hf : l.find? (fun a => a.id == j) with
  | some a => rfl
  | none => simp [List.find?, h]

theorem edit_message_text_state (s : BState) (chat : Int) (mid : Nat) (c : MsgContent) :
    (edit_message_text s chat mid c).applications = s.applications ∧
    (edit_message_text s chat mid c).messages = s.messages ∧
    (edit_message_text s chat mid c).counter = s.counter ∧
    (edit_message_text s chat mid c).queue = s.queue :=
  ⟨rfl, rfl, rfl, rfl⟩

theorem send_message_state (s : BState) (chat : Int) (c : MsgContent) :
    (send_message s chat c).1.applications = s.applications ∧
    (send_message s chat c).1.messages = s.messages ∧
    (send_message s chat c).1.counter = s.counter ∧
    (send_message s chat c).1.queue = s.queue :=
  ⟨rfl, rfl, rfl, rfl⟩

theorem update_status_state (s : BState) (i : String) (st : BStatus) (now : Nat) :
    (update_application_status s i st now).messages = s.messages ∧
    (update_application_status s i st now).counter = s.counter ∧
    (update_application_status s i st now).queue = s.queue :=
  ⟨rfl, rfl, rfl⟩

theorem button_denied_state (admins : List Int) (s : BState) (actor : Int)
    (action : BAction) (app_id : String) (cbChat : Int) (cbMsg : Nat) (now : Nat)
    (hadm : actor ∉ admins) :
    (button_handler admins s actor action app_id cbChat cbMsg now).1 =
      edit_message_text s cbChat cbMsg .deniedNotice := by
  unfold button_handler
  rw [if_neg hadm]

theorem button_notFound_state (admins : List Int) (s : BState) (actor : Int)
    (action : BAction) (app_id : String) (cbChat : Int) (cbMsg : Nat) (now : Nat)
    (hadm : actor ∈ admins) (hget : get_application s app_id = none) :
    (button_handler admins s actor action app_id cbChat cbMsg now).1 =
      edit_message_text s cbChat cbMsg .notFoundNotice := by
  unfold button_handler
  rw [if_pos hadm, hget]

theorem button_view_state (admins : List Int) (s : BState) (actor : Int)
    (app_id : String) (cbChat : Int) (cbMsg : Nat) (now : Nat) (app : BApp)
    (hadm : actor ∈ admins) (hget : get_application s app_id = some app) :
    (button_handler admins s actor .view app_id cbChat cbMsg now).1 =
      edit_message_text s cbChat cbMsg (.applicationView app_id app.application_data) := by
  unfold button_handler
  rw [if_pos hadm, hget]

theorem button_approve_state (admins : List Int) (s : BState) (actor : Int)
    (app_id : String) (cbChat : Int) (cbMsg : Nat) (now : Nat) (app : BApp)
    (hadm : actor ∈ admins) (hget : get_application s app_id = some app) :
    (button_handler admins s actor .approve app_id cbChat cbMsg now).1 =
      editOthers actor (MsgContent.approvedNotice app_id app.application_data)
        (edit_message_text (update_application_status s app_id .approved now) cbChat cbMsg
          (MsgContent.approvedNotice app_id app.application_data))
        (get_application_messages
          (edit_message_text (update_application_status s app_id .approved now) cbChat cbMsg
            (MsgContent.approvedNotice app_id app.application_data)) app_id) := by
  unfold button_handler
  rw [if_pos hadm, hget]

theorem button_reject_state (admins : List Int) (s : BState) (actor : Int)
    (app_id : String) (cbChat : Int) (cbMsg : Nat) (now : Nat) (app : BApp)
    (hadm : actor ∈ admins) (hget : get_application s app_id = some app) :
    (button_handler admins s actor .reject app_id cbChat cbMsg now).1 =
      editOthers actor (MsgContent.rejectedNotice app_id app.application_data)
        (edit_message_text (update_application_status s app_id .rejected now) cbChat cbMsg
          (MsgContent.rejectedNotice app_id app.application_data))
        (get_application_messages
          (edit_message_text (update_application_status s app_id .rejected now) cbChat cbMsg
            (MsgContent.rejectedNotice app_id app.application_data)) app_id) := by
  unfold button_handler
  rw [if_pos hadm, hget]

theorem command_approve_state (admins : List Int) (s : BState) (actor : Int)
    (app_id : String) (now : Nat) (app : BApp)
    (hadm : actor ∈ admins) (hget : get_application s app_id = some app) :
    process_application_action admins s actor .approve app_id now =
      (send_message
        (editAll (MsgContent.approvedNotice app_id app.application_data)
          (update_application_status s app_id .approved now)
          (get_application_messages (update_application_status s app_id .approved now) app_id))
        actor (.actionConfirmation app_id .approved)).1 := by
  unfold process_application_action
  rw [if_pos hadm, hget]

theorem command_reject_state (admins : List Int) (s : BState) (actor : Int)
    (app_id : String) (now : Nat) (app : BApp)
    (hadm : actor ∈ admins) (hget : get_application s app_id = some app) :
    process_application_action admins s actor .reject app_id now =
      (send_message
        (editAll (MsgContent.rejectedNotice app_id app.application_data)
          (update_application_status s app_id .rejected now)
          (get_application_messages (update_application_status s app_id .rejected now) app_id))
        actor (.actionConfirmation app_id .rejected)).1 := by
  unfold process_application_action
  rw [if_pos hadm, hget]

/-- The review command and the not-found / view / denied button paths
leave the four store components untouched. -/
theorem review_state (admins : List Int) (s : BState) (actor : Int) (app_id : String) :
    (review_command admins s actor app_id).applications = s.applications ∧
    (review_command admins s actor app_id).messages = s.messages ∧
    (review_command admins s actor app_id).counter = s.counter ∧
    (review_command admins s actor app_id).queue = s.queue := by
  unfold review_command
  by_cases hadm : actor ∈ admins
  · rw [if_pos hadm]
    cases hget : get_application s app_id with
    | none => exact ⟨rfl, rfl, rfl, rfl⟩
    | some app => exact ⟨rfl, rfl, rfl, rfl⟩
  · rw [if_neg hadm]
    exact ⟨rfl, rfl, rfl, rfl⟩

/-- One operation preserves "this id was already minted, is not queued,
and its row (if any) is in a terminal status". -/
theorem bstep_terminal_preserved (id : String) {s t : BState} (hstep : BStep s t)
    (hb : ∃ n, 1 ≤ n ∧ n ≤ s.counter ∧ id = appIdFmt n)
    (hq : ∀ q ∈ s.queue, q.1 ≠ id)
    (hterm : ∀ a, get_application s id = some a →
      a.status = .approved ∨ a.status = .rejected) :
    (∃ n, 1 ≤ n ∧ n ≤ t.counter ∧ id = appIdFmt n) ∧
    (∀ q ∈ t.queue, q.1 ≠ id) ∧
    (∀ a, get_application t id = some a →
      a.status = .approved ∨ a.status = .rejected) := by
  obtain ⟨n, h1, h2, h3⟩ := hb
  have hfresh : ∀ c : Nat, s.counter ≤ c → appIdFmt (c + 1) ≠ id := by
    intro c hc
    rw [h3]
    exact appIdFmt_ne_of_lt (by omega)
  cases hstep with
  | http d tg now =>
    refine ⟨⟨n, h1, Nat.le_succ_of_le h2, h3⟩, ?_, ?_⟩
    · intro q hqm
      rcases List.mem_append.mp hqm with hqm | hqm
      · exact hq q hqm
      · rw [List.mem_singleton.mp hqm]
        exact hfresh s.counter (Nat.le_refl _)
    · intro a ha
      refine hterm a ?_
      rw [show get_application (http_application_handler s d tg now).1 id =
          get_application s id from
        find?_id_append s.applications _ id
          (beq_eq_false_iff_ne.mpr (hfresh s.counter (Nat.le_refl _)))] at ha
      exact ha
  | chat text now =>
    by_cases hm : pyContains text applicationMarker = true
    · cases hext : extractTelegram text with
      | none =>
        have he : (handle_application s text now).1 = { s with counter := s.counter + 1 } := by
          unfold handle_application
          rw [if_pos hm, hext]
          rfl
        rw [he]
        exact ⟨⟨n, h1, Nat.le_succ_of_le h2, h3⟩, hq, hterm⟩
      | some tg =>
        have he : (handle_application s text now).1 =
            { applications := s.applications ++
                  [⟨appIdFmt (s.counter + 1), .pending, text, tg, now, now⟩],
              messages := s.messages, counter := s.counter + 1,
              queue := s.queue ++ [(appIdFmt (s.counter + 1), .telegramSrc)],
              chats := s.chats, nextMsgId := s.nextMsgId } := by
          unfold handle_application
          rw [if_pos hm, hext]
          rfl
        rw [he]
        refine ⟨⟨n, h1, Nat.le_succ_of_le h2, h3⟩, ?_, ?_⟩
        · intro q hqm
          rcases List.mem_append.mp hqm with hqm | hqm
          · exact hq q hqm
          · rw [List.mem_singleton.mp hqm]
            exact hfresh s.counter (Nat.le_refl _)
        · intro a ha
          refine hterm a ?_
          rw [show get_application
              { applications := s.applications ++
                    [⟨appIdFmt (s.counter + 1), BStatus.pending, text, tg, now, now⟩],
                messages := s.messages, counter := s.counter + 1,
                queue := s.queue ++ [(appIdFmt (s.counter + 1), .telegramSrc)],
                chats := s.chats, nextMsgId := s.nextMsgId } id =
              get_application s id from
            find?_id_append s.applications _ id
              (beq_eq_false_iff_ne.mpr (hfresh s.counter (Nat.le_refl _)))] at ha
          exact ha
    · have he : (handle_application s text now).1 = s := by
        unfold handle_application
        rw [if_neg hm]
      rw [he]
      exact ⟨⟨n, h1, h2, h3⟩, hq, hterm⟩
  | process admins sendOk now =>
    cases hqe : s.queue with
    | nil =>
      have he : process_one admins sendOk now s = s := by
        unfold process_one
        rw [hqe]
      rw [he]
      exact ⟨⟨n, h1, h2, h3⟩, hq, hterm⟩
    | cons hd rest =>
      obtain ⟨a_id, src⟩ := hd
      have hane : a_id ≠ id := hq (a_id, src) (by rw [hqe]; exact List.mem_cons_self _ _)
      have hqrest : ∀ q ∈ rest, q.1 ≠ id :=
        fun q hqm => hq q (by rw [hqe]; exact List.mem_cons_of_mem _ hqm)
      cases happ : get_application { s with queue := rest } a_id with
      | none =>
        have he : process_one admins sendOk now s = { s with queue := rest } := by
          simp only [process_one, hqe, happ]
        rw [he]
        exact ⟨⟨n, h1, h2, h3⟩, hqrest, hterm⟩
      | some app =>
        have he : process_one admins sendOk now s =
            update_application_status (fanout sendOk a_id { s with queue := rest } admins)
              a_id .pending now := by
          simp only [process_one, hqe, happ]
        rw [he]
        obtain ⟨hfa, hfc, hfq⟩ := fanout_state sendOk a_id admins { s with queue := rest }
        refine ⟨⟨n, h1, ?_, h3⟩, ?_, ?_⟩
        · show n ≤ (fanout sendOk a_id { s with queue := rest } admins).counter
          rw [hfc]
          exact h2
        · intro q hqm
          have hqm2 : q ∈ (fanout sendOk a_id { s with queue := rest } admins).queue := hqm
          rw [hfq] at hqm2
          exact hqrest q hqm2
        · intro a ha
          rw [get_application_update, get_application_eq_of hfa] at ha
          cases hsi : get_application { s with queue := rest } id with
          | none => rw [hsi] at ha; exact Option.noConfusion ha
          | some b =>
            rw [hsi] at ha
            have hsi2 : s.applications.find? (fun a => a.id == id) = some b := hsi
            have hbid0 := List.find?_some hsi2
            simp only [beq_iff_eq] at hbid0
            have hba : (b.id == a_id) = false := by
              rw [beq_eq_false_iff_ne, hbid0]
              exact fun he2 => hane he2.symm
            rw [Option.map_some'] at ha
            rw [hba] at ha
            simp only [Bool.false_eq_true, if_false] at ha
            injection ha with ha
            rw [← ha]
            exact hterm b hsi
  | button admins actor action app_id cbChat cbMsg now =>
    by_cases hadm : actor ∈ admins
    · cases hget : get_application s app_id with
      | none =>
        rw [button_notFound_state admins s actor action app_id cbChat cbMsg now hadm hget]
        exact ⟨⟨n, h1, h2, h3⟩, hq, hterm⟩
      | some app =>
        cases action with
        | view =>
          rw [button_view_state admins s actor app_id cbChat cbMsg now app hadm hget]
          exact ⟨⟨n, h1, h2, h3⟩, hq, hterm⟩
        | approve =>
          rw [button_approve_state admins s actor app_id cbChat cbMsg now app hadm hget]
          refine ⟨⟨n, h1, ?_, h3⟩, ?_, ?_⟩
          · rw [(editOthers_state _ _ _ _).2.2.1, (edit_message_text_state _ _ _ _).2.2.1,
              (update_status_state _ _ _ _).2.1]
            exact h2
          · intro q hqm
            rw [(editOthers_state _ _ _ _).2.2.2, (edit_message_text_state _ _ _ _).2.2.2,
              (update_status_state _ _ _ _).2.2] at hqm
            exact hq q hqm
          · intro a ha
            rw [get_application_eq_of (editOthers_state _ _ _ _).1,
              get_application_eq_of (edit_message_text_state _ _ _ _).1,
              get_application_update] at ha
            cases hsi : get_application s id with
            | none => rw [hsi] at ha; exact Option.noConfusion ha
            | some b =>
              rw [hsi, Option.map_some'] at ha
              by_cases hba : (b.id == app_id) = true
              · rw [hba] at ha
                simp only [if_true] at ha
                injection ha with ha
                rw [← ha]
                exact Or.inl rfl
              · rw [Bool.not_eq_true] at hba
                rw [hba] at ha
                simp only [Bool.false_eq_true, if_false] at ha
                injection ha with ha
                rw [← ha]
                exact hterm b hsi
        | reject =>
          rw [button_reject_state admins s actor app_id cbChat cbMsg now app hadm hget]
          refine ⟨⟨n, h1, ?_, h3⟩, ?_, ?_⟩
          · rw [(editOthers_state _ _ _ _).2.2.1, (edit_message_text_state _ _ _ _).2.2.1,
              (update_status_state _ _ _ _).2.1]
            exact h2
          · intro q hqm
            rw [(editOthers_state _ _ _ _).2.2.2, (edit_message_text_state _ _ _ _).2.2.2,
              (update_status_state _ _ _ _).2.2] at hqm
            exact hq q hqm
          · intro a ha
            rw [get_application_eq_of (editOthers_state _ _ _ _).1,
              get_application_eq_of (edit_message_text_state _ _ _ _).1,
              get_application_update] at ha
            cases hsi : get_application s id with
            | none => rw [hsi] at ha; exact Option.noConfusion ha
            | some b =>
              rw [hsi, Option.map_some'] at ha
              by_cases hba : (b.id == app_id) = true
              · rw [hba] at ha
                simp only [if_true] at ha
                injection ha with ha
                rw [← ha]
                exact Or.inr rfl
              · rw [Bool.not_eq_true] at hba
                rw [hba] at ha
                simp only [Bool.false_eq_true, if_false] at ha
                injection ha with ha
                rw [← ha]
                exact hterm b hsi
    · rw [button_denied_state admins s actor action app_id cbChat cbMsg now hadm]
      exact ⟨⟨n, h1, h2, h3⟩, hq, hterm⟩
  | review admins actor app_id =>
    obtain ⟨hr1, hr2, hr3, hr4⟩ := review_state admins s actor app_id
    refine ⟨⟨n, h1, by rw [hr3]; exact h2, h3⟩, ?_, ?_⟩
    · intro q hqm
      rw [hr4] at hqm
      exact hq q hqm
    · intro a ha
      rw [get_application_eq_of hr1] at ha
      exact hterm a ha
  | command admins actor action app_id now =>
    by_cases hadm : actor ∈ admins
    · cases hget : get_application s app_id with
      | none =>
        have he : process_application_action admins s actor action app_id now =
            (send_message s actor .notFoundNotice).1 := by
          unfold process_application_action
          rw [if_pos hadm, hget]
        rw [he]
        exact ⟨⟨n, h1, h2, h3⟩, hq, hterm⟩
      | some app =>
        cases action with
        | view =>
          have he : process_application_action admins s actor .view app_id now = s := by
            unfold process_application_action
            rw [if_pos hadm, hget]
          rw [he]
          exact ⟨⟨n, h1, h2, h3⟩, hq, hterm⟩
        | approve =>
          rw [command_approve_state admins s actor app_id now app hadm hget]
          refine ⟨⟨n, h1, ?_, h3⟩, ?_, ?_⟩
          · rw [(send_message_state _ _ _).2.2.1, (editAll_state _ _ _).2.2.1,
              (update_status_state _ _ _ _).2.1]
            exact h2
          · intro q hqm
            rw [(send_message_state _ _ _).2.2.2, (editAll_state _ _ _).2.2.2,
              (update_status_state _ _ _ _).2.2] at hqm
            exact hq q hqm
          · intro a ha
            rw [get_application_eq_of (send_message_state _ _ _).1,
              get_application_eq_of (editAll_state _ _ _).1,
              get_application_update] at ha
            cases hsi : get_application s id with
            | none => rw [hsi] at ha; exact Option.noConfusion ha
            | some b =>
              rw [hsi, Option.map_some'] at ha
              by_cases hba : (b.id == app_id) = true
              · rw [hba] at ha
                simp only [if_true] at ha
                injection ha with ha
                rw [← ha]
                exact Or.inl rfl
              · rw [Bool.not_eq_true] at hba
                rw [hba] at ha
                simp only [Bool.false_eq_true, if_false] at ha
                injection ha with ha
                rw [← ha]
                exact hterm b hsi
        | reject =>
          rw [command_reject_state admins s actor app_id now app hadm hget]
          refine ⟨⟨n, h1, ?_, h3⟩, ?_, ?_⟩
          · rw [(send_message_state _ _ _).2.2.1, (editAll_state _ _ _).2.2.1,
              (update_status_state _ _ _ _).2.1]
            exact h2
          · intro q hqm
            rw [(send_message_state _ _ _).2.2.2, (editAll_state _ _ _).2.2.2,
              (update_status_state _ _ _ _).2.2] at hqm
            exact hq q hqm
          · intro a ha
            rw [get_application_eq_of (send_message_state _ _ _).1,
              get_application_eq_of (editAll_state _ _ _).1,
              get_application_update] at ha
            cases hsi : get_application s id with
            | none => rw [hsi] at ha; exact Option.noConfusion ha
            | some b =>
              rw [hsi, Option.map_some'] at ha
              by_cases hba : (b.id == app_id) = true
              · rw [hba] at ha
                simp only [if_true] at ha
                injection ha with ha
                rw [← ha]
                exact Or.inr rfl
              · rw [Bool.not_eq_true] at hba
                rw [hba] at ha
                simp only [Bool.false_eq_true, if_false] at ha
                injection ha with ha
                rw [← ha]
                exact hterm b hsi
    · have he : process_application_action admins s actor action app_id now = s := by
        unfold process_application_action
        rw [if_neg hadm]
      rw [he]
      exact ⟨⟨n, h1, h2, h3⟩, hq, hterm⟩

end BotDB

/-- C9 (amended): once an application reaches approved or rejected it
never returns to pending in the Flask variant, under any further
sequence of operations; in the relational variant the same holds for
every application whose intake-queue entry has already been drained —
whereas an application decided while still queued is reset to pending by
the background processor (see the counterexample). -/
theorem c9_terminal_never_pending :
    (∀ (s : Flask.FState) (key : String), Flask.FReachable s →
      ((dictGet s.approved key).isSome ∨ (dictGet s.rejected key).isSome) →
      ∀ t, Relation.ReflTransGen Flask.FStep s t → dictGet t.pending key = none) ∧
    (∀ (s : BotDB.BState) (key : String), BotDB.BReachable s →
      (∀ q ∈ s.queue, q.1 ≠ key) →
      (∃ a, BotDB.get_application s key = some a ∧
        (a.status = .approved ∨ a.status = .rejected)) →
      ∀ t, Relation.ReflTransGen BotDB.BStep s t →
        ∀ a, BotDB.get_application t key = some a → a.status ≠ .pending) := by
  constructor
  · intro s key hreach hterm t hrt
    have inv := Flask.inv_reachable s hreach
    have hb : ∃ n, 1 ≤ n ∧ n < s.counter ∧ key = pyStr n := by
      rcases hterm with h | h
      · obtain ⟨p, hp, hpk⟩ := (dictGet_isSome_iff _ _).mp h
        obtain ⟨n, h1, h2, h3⟩ := inv.boundA p hp
        exact ⟨n, h1, h2, by rw [← hpk]; exact h3⟩
      · obtain ⟨p, hp, hpk⟩ := (dictGet_isSome_iff _ _).mp h
        obtain ⟨n, h1, h2, h3⟩ := inv.boundR p hp
        exact ⟨n, h1, h2, by rw [← hpk]; exact h3⟩
    have hnp : dictGet s.pending key = none := by
      cases hpe : dictGet s.pending key with
      | none => rfl
      | some v =>
        exfalso
        obtain ⟨p, hp, hpk⟩ := (dictGet_isSome_iff _ _).mp
          (show (dictGet s.pending key).isSome by rw [hpe]; rfl)
        rcases hterm with h | h
        · obtain ⟨q, hq2, hqk⟩ := (dictGet_isSome_iff _ _).mp h
          exact inv.disjPA p hp q hq2 (hpk.trans hqk.symm)
        · obtain ⟨q, hq2, hqk⟩ := (dictGet_isSome_iff _ _).mp h
          exact inv.disjPR p hp q hq2 (hpk.trans hqk.symm)
    have hP : (∃ n, 1 ≤ n ∧ n < t.counter ∧ key = pyStr n) ∧
        dictGet t.pending key = none := by
      induction hrt with
      | refl => exact ⟨hb, hnp⟩
      | tail hab hbc ih => exact Flask.fstep_pending_preserved key hbc ih.1 ih.2
    exact hP.2
  · intro s key hreach hq hterm t hrt
    have binv := BotDB.binv_reachable s hreach
    obtain ⟨a0, ha0, hst0⟩ := hterm
    have hai : a0.id = key := by
      have hsi2 : s.applications.find? (fun a => a.id == key) = some a0 := ha0
      have := List.find?_some hsi2
      simpa using this
    have hb : ∃ n, 1 ≤ n ∧ n ≤ s.counter ∧ key = appIdFmt n := by
      have hmem : a0 ∈ s.applications := List.mem_of_find?_eq_some ha0
      obtain ⟨n, h1, h2, h3⟩ := binv.boundApp a0 hmem
      exact ⟨n, h1, h2, by rw [← hai]; exact h3⟩
    have hterm2 : ∀ a, BotDB.get_application s key = some a →
        a.status = .approved ∨ a.status = .rejected := by
      intro a ha
      rw [ha0] at ha
      injection ha with ha
      rw [← ha]
      exact hst0
    have hP : (∃ n, 1 ≤ n ∧ n ≤ t.counter ∧ key = appIdFmt n) ∧
        (∀ q ∈ t.queue, q.1 ≠ key) ∧
        (∀ a, BotDB.get_application t key = some a →
          a.status = .approved ∨ a.status = .rejected) := by
      induction hrt with
      | refl => exact ⟨hb, hq, hterm2⟩
      | tail hab hbc ih =>
        exact BotDB.bstep_terminal_preserved key hbc ih.1 ih.2.1 ih.2.2
    intro a ha
    rcases hP.2.2 a ha with h | h <;> rw [h] <;> decide

/-- C9 counterexample: in the relational variant, APP-0001 is approved
by command while its intake-queue entry is still unprocessed; the
background processor then drains the entry and resets the status to
pending. The whole trace is reachable. -/
theorem c9_counterexample :
    BotDB.BReachable BotDB.bstateReverted ∧
    (BotDB.get_application BotDB.bstateApproved "APP-0001").map BotDB.BApp.status =
      some .approved ∧
    BotDB.bstateApproved.queue = [("APP-0001", .website)] ∧
    (BotDB.get_application BotDB.bstateReverted "APP-0001").map BotDB.BApp.status =
      some .pending :=
  ⟨BotDB.BReachable.step
      (BotDB.BReachable.step
        (BotDB.BReachable.step BotDB.BReachable.init
          (BotDB.BStep.http BotDB.initB "raw application" "@bob" 0))
        (BotDB.BStep.command BotDB.bstate1 [1] 1 .approve "APP-0001" 10))
      (BotDB.BStep.process BotDB.bstateApproved [1] (fun _ => true) 20),
   by decide, by decide, by decide⟩

/-- Witness for `c9_terminal_never_pending`: the approved application
"1" of the reachable Flask state `state2` is not pending, and stays
non-pending after a further delete press. -/
theorem c9_witness :
    dictGet (Flask.button_handler [5, 6] Flask.state2 6 "Bob" .delete "1" 500).1.pending
      "1" = none :=
  (c9_terminal_never_pending).1 Flask.state2 "1"
    (Flask.FReachable.step
      (Flask.FReachable.step Flask.FReachable.init
        (Flask.FStep.submit Flask.initState Flask.sampleData 100))
      (Flask.FStep.button Flask.state1 [5, 6] 5 "Alice" .approve "1" 200))
    (Or.inl (by decide))
    (Flask.button_handler [5, 6] Flask.state2 6 "Bob" .delete "1" 500).1
    (Relation.ReflTransGen.single
      (Flask.FStep.button Flask.state2 [5, 6] 6 "Bob" .delete "1" 500))

/-! ## Claim C8 -/

/-- C8 (confirmed): in every reachable relational state the `messages`
table holds at most one NotificationRef per `(application_id, chat_id)`
pair, and `save_message` replaces rather than duplicates: it preserves
key uniqueness, makes the pair's ref point at the new message id, leaves
every other pair's ref unchanged, and does not grow the table when the
pair already had a ref. -/
theorem c8_notification_ref_unique :
    (∀ s : BotDB.BState, BotDB.BReachable s → BotDB.MsgsNodup s.messages) ∧
    (∀ (rows : List BotDB.MsgRow) (app_id : String) (chat : Int) (mid : Nat),
      BotDB.MsgsNodup rows →
      BotDB.MsgsNodup (BotDB.save_message rows app_id chat mid) ∧
      BotDB.lookupRef (BotDB.save_message rows app_id chat mid) app_id chat = some mid ∧
      (∀ (a : String) (c : Int), ¬(app_id = a ∧ chat = c) →
        BotDB.lookupRef (BotDB.save_message rows app_id chat mid) a c =
          BotDB.lookupRef rows a c) ∧
      ((BotDB.lookupRef rows app_id chat).isSome →
        (BotDB.save_message rows app_id chat mid).length = rows.length)) := by
  constructor
  · exact fun s h => (BotDB.binv_reachable s h).msgsNodup
  · intro rows app_id chat mid h
    exact ⟨BotDB.msgsNodup_save rows app_id chat mid h,
      BotDB.lookupRef_save_self rows app_id chat mid,
      fun a c hne => BotDB.lookupRef_save_other rows app_id chat mid a c hne,
      fun hs => BotDB.save_message_length rows app_id chat mid hs⟩

/-- Witness for `c8_notification_ref_unique` on the reachable state
`bstate2` (two recorded refs): a later save for the same pair replaces
the ref without growing the table. -/
theorem c8_witness :
    BotDB.MsgsNodup BotDB.bstate2.messages ∧
    BotDB.lookupRef (BotDB.save_message BotDB.bstate2.messages "APP-0001" 1 7)
      "APP-0001" 1 = some 7 ∧
    (BotDB.save_message BotDB.bstate2.messages "APP-0001" 1 7).length =
      BotDB.bstate2.messages.length :=
  ⟨(c8_notification_ref_unique).1 BotDB.bstate2
      (BotDB.BReachable.step
        (BotDB.BReachable.step BotDB.BReachable.init
          (BotDB.BStep.http BotDB.initB "raw application" "@bob" 0))
        (BotDB.BStep.process BotDB.bstate1 [1, 2] (fun _ => true) 10)),
   ((c8_notification_ref_unique).2 BotDB.bstate2.messages "APP-0001" 1 7 (by decide)).2.1,
   ((c8_notification_ref_unique).2 BotDB.bstate2.messages "APP-0001" 1 7
      (by decide)).2.2.2 (by decide)⟩

/-! ## Delivered-message content lemmas -/

namespace BotDB

theorem chatContent_send_preserved {s : BState} {chat : Int} {mid : Nat}
    {x : MsgContent} (h : chatContent s chat mid = some x) (b : Int) (c : MsgContent) :
    chatContent (send_message s b c).1 chat mid = some x := by
  unfold chatContent at h ⊢
  show ((s.chats ++ [(⟨b, s.nextMsgId, c⟩ : TgMsg)]).find?
      (fun m : TgMsg => m.chat_id = chat ∧ m.message_id = mid)).map TgMsg.content = some x
  rw [List.find?_append]
  cases hf : s.chats.find? (fun m => m.chat_id = chat ∧ m.message_id = mid) with
  | none => rw [hf] at h; simp at h
  | some m =>
    rw [hf] at h
    simpa using h

theorem chatContent_send_new (s : BState) (b : Int) (c : MsgContent)
    (hw : ∀ m ∈ s.chats, m.message_id < s.nextMsgId) :
    chatContent (send_message s b c).1 b s.nextMsgId = some c := by
  unfold chatContent
  show ((s.chats ++ [(⟨b, s.nextMsgId, c⟩ : TgMsg)]).find?
      (fun m : TgMsg => m.chat_id = b ∧ m.message_id = s.nextMsgId)).map TgMsg.content = some c
  rw [List.find?_append]
  have hnone : s.chats.find? (fun m => m.chat_id = b ∧ m.message_id = s.nextMsgId) = none := by
    rw [List.find?_eq_none]
    intro m hm
    simp only [decide_eq_true_eq, not_and]
    intro _ he
    exact absurd (he ▸ hw m hm) (lt_irrefl _)
  rw [hnone]
  simp [List.find?]

theorem find?_isSome_map_of (f : TgMsg → TgMsg) (p : TgMsg → Bool)
    (hf : ∀ m, p (f m) = p m) :
    ∀ l : List TgMsg, ((l.map f).find? p).isSome = (l.find? p).isSome
  | [] => rfl
  | m :: l => by
    by_cases hm : p m = true
    · rw [List.map_cons, List.find?_cons_of_pos _ (by rw [hf]; exact hm),
        List.find?_cons_of_pos _ hm]
      rfl
    · rw [List.map_cons,
        List.find?_cons_of_neg _ (by rw [hf]; exact hm),
        List.find?_cons_of_neg _ hm]
      exact find?_isSome_map_of f p hf l

theorem editFun_preserves_pred (chat2 : Int) (mid2 : Nat) (c : MsgContent)
    (chat : Int) (mid : Nat) (m : TgMsg) :
    (fun m : TgMsg => decide (m.chat_id = chat ∧ m.message_id = mid))
      (if m.chat_id = chat2 ∧ m.message_id = mid2 then { m with content := c } else m) =
    (fun m : TgMsg => decide (m.chat_id = chat ∧ m.message_id = mid)) m := by
  by_cases hm : m.chat_id = chat2 ∧ m.message_id = mid2 <;> simp [hm]

theorem chatContent_edit_isSome (s : BState) (chat2 : Int) (mid2 : Nat) (c : MsgContent)
    (chat : Int) (mid : Nat) :
    (chatContent (edit_message_text s chat2 mid2 c) chat mid).isSome =
      (chatContent s chat mid).isSome := by
  have hc : (edit_message_text s chat2 mid2 c).chats =
      s.chats.map (fun m => if m.chat_id = chat2 ∧ m.message_id = mid2
        then { m with content := c } else m) := rfl
  unfold chatContent
  rw [hc, Option.isSome_map', Option.isSome_map']
  exact find?_isSome_map_of _ _ (editFun_preserves_pred chat2 mid2 c chat mid) s.chats

theorem find?_edit_self (chat : Int) (mid : Nat) (c : MsgContent) :
    ∀ l : List TgMsg,
      ((l.find? (fun m => m.chat_id = chat ∧ m.message_id = mid)).isSome) →
      (((l.map (fun m => if m.chat_id = chat ∧ m.message_id = mid
            then { m with content := c } else m)).find?
          (fun m => m.chat_id = chat ∧ m.message_id = mid)).map TgMsg.content) = some c
  | [], h => by simp [List.find?] at h
  | m :: l, h => by
    by_cases hm : m.chat_id = chat ∧ m.message_id = mid
    · simp only [List.map_cons, if_pos hm]
      rw [List.find?_cons_of_pos _ (by simp [hm])]
      rfl
    · simp only [List.map_cons, if_neg hm]
      rw [List.find?_cons_of_neg _ (by simp [hm])]
      rw [List.find?_cons_of_neg _ (by simp [hm])] at h
      exact find?_edit_self chat mid c l h

theorem chatContent_edit_self (s : BState) (chat : Int) (mid : Nat) (c : MsgContent)
    (h : (chatContent s chat mid).isSome) :
    chatContent (edit_message_text s chat mid c) chat mid = some c := by
  unfold chatContent at h
  rw [Option.isSome_map'] at h
  have hc : (edit_message_text s chat mid c).chats =
      s.chats.map (fun m => if m.chat_id = chat ∧ m.message_id = mid
        then { m with content := c } else m) := rfl
  unfold chatContent
  rw [hc]
  exact find?_edit_self chat mid c s.chats h

theorem find?_edit_other (chat2 : Int) (mid2 : Nat) (c : MsgContent) (chat : Int)
    (mid : Nat) (hne : ¬(chat = chat2 ∧ mid = mid2)) :
    ∀ l : List TgMsg,
      (l.map (fun m => if m.chat_id = chat2 ∧ m.message_id = mid2
          then { m with content := c } else m)).find?
        (fun m => m.chat_id = chat ∧ m.message_id = mid) =
      l.find? (fun m => m.chat_id = chat ∧ m.message_id = mid)
  | [] => rfl
  | m :: l => by
    by_cases hq : m.chat_id = chat ∧ m.message_id = mid
    · have hnedit : ¬(m.chat_id = chat2 ∧ m.message_id = mid2) := by
        rintro ⟨h1, h2⟩
        exact hne ⟨hq.1.symm.trans h1, hq.2.symm.trans h2⟩
      simp only [List.map_cons, if_neg hnedit]
      rw [List.find?_cons_of_pos _ (by simp [hq]),
        List.find?_cons_of_pos _ (by simp [hq])]
    · by_cases he : m.chat_id = chat2 ∧ m.message_id = mid2
      · simp only [List.map_cons, if_pos he]
        rw [List.find?_cons_of_neg _ (by simp [hq]),
          List.find?_cons_of_neg _ (by simp [hq])]
        exact find?_edit_other chat2 mid2 c chat mid hne l
      · simp only [List.map_cons, if_neg he]
        rw [List.find?_cons_of_neg _ (by simp [hq]),
          List.find?_cons_of_neg _ (by simp [hq])]
        exact find?_edit_other chat2 mid2 c chat mid hne l

theorem chatContent_edit_other (s : BState) (chat2 : Int) (mid2 : Nat) (c : MsgContent)
    (chat : Int) (mid : Nat) (hne : ¬(chat = chat2 ∧ mid = mid2)) :
    chatContent (edit_message_text s chat2 mid2 c) chat mid = chatContent s chat mid := by
  unfold chatContent
  rw [show (edit_message_text s chat2 mid2 c).chats =
      s.chats.map (fun m => if m.chat_id = chat2 ∧ m.message_id = mid2
        then { m with content := c } else m) from rfl]
  rw [find?_edit_other chat2 mid2 c chat mid hne s.chats]

/-- The combined fan-out lemma: the send loop keeps message ids fresh,
preserves already-recorded correct copies, records a correct copy for
every admin whose send succeeded, and records nothing for a recipient
whose send failed. -/
theorem fanout_refs (sendOk : Int → Bool) (app_id : String) :
    ∀ (admins : List Int) (s : BState),
      (∀ m ∈ s.chats, m.message_id < s.nextMsgId) →
      (∀ m ∈ (fanout sendOk app_id s admins).chats,
          m.message_id < (fanout sendOk app_id s admins).nextMsgId) ∧
      (∀ a : Int,
        (∃ mid, lookupRef s.messages app_id a = some mid ∧
          chatContent s a mid = some (.newApplication app_id)) →
        (∃ mid, lookupRef (fanout sendOk app_id s admins).messages app_id a = some mid ∧
          chatContent (fanout sendOk app_id s admins) a mid =
            some (.newApplication app_id))) ∧
      (∀ a ∈ admins, sendOk a = true →
        ∃ mid, lookupRef (fanout sendOk app_id s admins).messages app_id a = some mid ∧
          chatContent (fanout sendOk app_id s admins) a mid =
            some (.newApplication app_id)) ∧
      (∀ a : Int, sendOk a = false →
        lookupRef (fanout sendOk app_id s admins).messages app_id a =
          lookupRef s.messages app_id a)
  | [], s, hw => by
    refine ⟨hw, fun a h => h, ?_, fun a _ => rfl⟩
    intro a ha
    simp at ha
  | b :: rest, s, hw => by
    by_cases hs : sendOk b = true
    · have hstep : fanout sendOk app_id s (b :: rest) =
          fanout sendOk app_id
            { (send_message s b (.newApplication app_id)).1 with
              messages := save_message (send_message s b (.newApplication app_id)).1.messages
                app_id b (send_message s b (.newApplication app_id)).2 } rest := by
        simp only [fanout, if_pos hs]
      rw [hstep]
      set s₂ : BState :=
        { (send_message s b (.newApplication app_id)).1 with
          messages := save_message (send_message s b (.newApplication app_id)).1.messages
            app_id b (send_message s b (.newApplication app_id)).2 } with hs₂
      have hw₂ : ∀ m ∈ s₂.chats, m.message_id < s₂.nextMsgId := by
        intro m hm
        rcases List.mem_append.mp hm with hm | hm
        · exact Nat.lt_succ_of_lt (hw m hm)
        · rw [List.mem_singleton.mp hm]
          exact Nat.lt_succ_self _
      have hQb : ∃ mid, lookupRef s₂.messages app_id b = some mid ∧
          chatContent s₂ b mid = some (.newApplication app_id) := by
        refine ⟨s.nextMsgId, ?_, ?_⟩
        · exact lookupRef_save_self _ _ _ _
        · show chatContent (send_message s b (.newApplication app_id)).1 b s.nextMsgId =
            some (.newApplication app_id)
          exact chatContent_send_new s b _ hw
      have hpres : ∀ a : Int,
          (∃ mid, lookupRef s.messages app_id a = some mid ∧
            chatContent s a mid = some (.newApplication app_id)) →
          (∃ mid, lookupRef s₂.messages app_id a = some mid ∧
            chatContent s₂ a mid = some (.newApplication app_id)) := by
        intro a ha
        by_cases hab : a = b
        · rw [hab]
          exact hQb
        · obtain ⟨mid, hl, hc⟩ := ha
          refine ⟨mid, ?_, ?_⟩
          · rw [lookupRef_save_other _ _ _ _ _ _ (fun hx => hab hx.2.symm)]
            exact hl
          · show chatContent (send_message s b (.newApplication app_id)).1 a mid =
              some (.newApplication app_id)
            exact chatContent_send_preserved hc b _
      obtain ⟨ih1, ih2, ih3, ih4⟩ := fanout_refs sendOk app_id rest s₂ hw₂
      refine ⟨ih1, fun a ha => ih2 a (hpres a ha), ?_, ?_⟩
      · intro a ha hsa
        rcases List.mem_cons.mp ha with rfl | ha
        · exact ih2 a hQb
        · exact ih3 a ha hsa
      · intro a hsa
        rw [ih4 a hsa]
        have hab : a ≠ b := fun he => by rw [he] at hsa; rw [hsa] at hs; exact Bool.noConfusion hs
        exact lookupRef_save_other _ _ _ _ _ _ (fun hx => hab hx.2.symm)
    · have hstep : fanout sendOk app_id s (b :: rest) = fanout sendOk app_id s rest := by
        simp only [fanout, if_neg hs]
      rw [hstep]
      obtain ⟨ih1, ih2, ih3, ih4⟩ := fanout_refs sendOk app_id rest s hw
      refine ⟨ih1, ih2, ?_, ih4⟩
      intro a ha hsa
      rcases List.mem_cons.mp ha with rfl | ha
      · rw [hsa] at hs
        exact absurd rfl hs
      · exact ih3 a ha hsa

end BotDB


/-! ## C7: partial-failure isolation in the fan-out -/

/-- C7: for every fan-out of one application's notification to the admin
list, a delivery failure to one recipient does not abort the batch: every
admin whose send succeeded has a NotificationRef recorded pointing at a
delivered copy showing the new-application content, a recipient whose send
failed (and who had no prior ref) ends with no NotificationRef, and the
triggering HTTP request still reports success (delivery runs later, off
the queue). -/
theorem c7_partial_failure_isolation (admins : List Int) (sendOk : Int → Bool)
    (now : Nat) (s : BotDB.BState) (app_id : String) (src : BotDB.Source)
    (rest : List (String × BotDB.Source)) (app : BotDB.BApp)
    (hq : s.queue = (app_id, src) :: rest)
    (happ : BotDB.get_application { s with queue := rest } app_id = some app)
    (hnoref : ∀ a : Int, BotDB.lookupRef s.messages app_id a = none)
    (hw : ∀ m ∈ s.chats, m.message_id < s.nextMsgId) :
    (∀ a ∈ admins, sendOk a = true →
      ∃ mid,
        BotDB.lookupRef (BotDB.process_one admins sendOk now s).messages
          app_id a = some mid ∧
        BotDB.chatContent (BotDB.process_one admins sendOk now s) a mid =
          some (.newApplication app_id)) ∧
    (∀ a : Int, sendOk a = false →
      BotDB.lookupRef (BotDB.process_one admins sendOk now s).messages
        app_id a = none) ∧
    (∀ (s₀ : BotDB.BState) (dat tg : String) (n : Nat),
      ∃ i, (BotDB.http_application_handler s₀ dat tg n).2 = .success i) := by
  have he : BotDB.process_one admins sendOk now s =
      BotDB.update_application_status
        (BotDB.fanout sendOk app_id { s with queue := rest } admins)
        app_id .pending now := by
    simp only [BotDB.process_one, hq, happ]
  have hmsg : (BotDB.process_one admins sendOk now s).messages =
      (BotDB.fanout sendOk app_id { s with queue := rest } admins).messages := by
    rw [he]
    rfl
  have hchat : (BotDB.process_one admins sendOk now s).chats =
      (BotDB.fanout sendOk app_id { s with queue := rest } admins).chats := by
    rw [he]
    rfl
  obtain ⟨-, -, ih3, ih4⟩ :=
    BotDB.fanout_refs sendOk app_id admins { s with queue := rest } hw
  refine ⟨?_, ?_, fun s₀ dat tg n => ⟨(BotDB.get_next_application_id s₀.counter).2, rfl⟩⟩
  · intro a ha hsa
    obtain ⟨mid, h1, h2⟩ := ih3 a ha hsa
    refine ⟨mid, by rw [hmsg]; exact h1, ?_⟩
    have hcc : BotDB.chatContent (BotDB.process_one admins sendOk now s) a mid =
        BotDB.chatContent
          (BotDB.fanout sendOk app_id { s with queue := rest } admins) a mid := by
      unfold BotDB.chatContent
      rw [hchat]
    rw [hcc]
    exact h2
  · intro a hsa
    rw [hmsg, ih4 a hsa]
    exact hnoref a

theorem c7_witness :
    (∀ a ∈ [(1 : Int), 2], (fun x : Int => x == 1) a = true →
      ∃ mid,
        BotDB.lookupRef
          (BotDB.process_one [1, 2] (fun x : Int => x == 1) 10 BotDB.bstate1).messages
          "APP-0001" a = some mid ∧
        BotDB.chatContent
          (BotDB.process_one [1, 2] (fun x : Int => x == 1) 10 BotDB.bstate1) a mid =
          some (.newApplication "APP-0001")) ∧
    (∀ a : Int, (fun x : Int => x == 1) a = false →
      BotDB.lookupRef
        (BotDB.process_one [1, 2] (fun x : Int => x == 1) 10 BotDB.bstate1).messages
        "APP-0001" a = none) ∧
    (∀ (s₀ : BotDB.BState) (dat tg : String) (n : Nat),
      ∃ i, (BotDB.http_application_handler s₀ dat tg n).2 = .success i) :=
  c7_partial_failure_isolation [1, 2] (fun x : Int => x == 1) 10 BotDB.bstate1
    "APP-0001" .website [] ⟨"APP-0001", .received, "raw application", "@bob", 0, 0⟩
    (by decide) (by decide) (fun _ => rfl) (by decide)



/-! ## C4: in-place edit of recorded notification copies on a decision -/

namespace BotDB

theorem chatContent_edit_same_content (s : BState) (ch2 : Int) (mid2 : Nat)
    (c : MsgContent) (ch : Int) (mid : Nat) (h : chatContent s ch mid = some c) :
    chatContent (edit_message_text s ch2 mid2 c) ch mid = some c := by
  by_cases he : ch = ch2 ∧ mid = mid2
  · obtain ⟨rfl, rfl⟩ := he
    exact chatContent_edit_self s ch mid c (by rw [h]; rfl)
  · rw [chatContent_edit_other s ch2 mid2 c ch mid he]
    exact h

theorem editOthers_preserves_content (actor : Int) (c : MsgContent) :
    ∀ (rows : List MsgRow) (s : BState) (ch : Int) (mid : Nat),
      chatContent s ch mid = some c →
      chatContent (editOthers actor c s rows) ch mid = some c
  | [], _, _, _, h => h
  | r :: rest, s, ch, mid, h => by
    unfold editOthers
    by_cases hr : r.chat_id ≠ actor
    · rw [if_pos hr]
      exact editOthers_preserves_content actor c rest _ ch mid
        (chatContent_edit_same_content s r.chat_id r.message_id c ch mid h)
    · rw [if_neg hr]
      exact editOthers_preserves_content actor c rest s ch mid h

theorem editOthers_content (actor : Int) (c : MsgContent) :
    ∀ (rows : List MsgRow) (s : BState) (r : MsgRow),
      r ∈ rows → r.chat_id ≠ actor →
      (chatContent s r.chat_id r.message_id).isSome →
      chatContent (editOthers actor c s rows) r.chat_id r.message_id = some c
  | [], _, _, hr, _, _ => absurd hr (List.not_mem_nil _)
  | q :: rest, s, r, hr, hne, hsome => by
    unfold editOthers
    by_cases hq : q.chat_id ≠ actor
    · rw [if_pos hq]
      rcases List.mem_cons.mp hr with rfl | hr2
      · exact editOthers_preserves_content actor c rest _ r.chat_id r.message_id
          (chatContent_edit_self s r.chat_id r.message_id c hsome)
      · exact editOthers_content actor c rest _ r hr2 hne
          (by rw [chatContent_edit_isSome]; exact hsome)
    · rw [if_neg hq]
      rcases List.mem_cons.mp hr with rfl | hr2
      · exact absurd (not_not.mp hq) hne
      · exact editOthers_content actor c rest s r hr2 hne hsome

theorem editOthers_actor_chat (actor : Int) (c : MsgContent) :
    ∀ (rows : List MsgRow) (s : BState) (mid : Nat),
      chatContent (editOthers actor c s rows) actor mid = chatContent s actor mid
  | [], _, _ => rfl
  | r :: rest, s, mid => by
    unfold editOthers
    by_cases hr : r.chat_id ≠ actor
    · rw [if_pos hr, editOthers_actor_chat actor c rest _ mid]
      exact chatContent_edit_other s r.chat_id r.message_id c actor mid
        (fun hx => hr hx.1.symm)
    · rw [if_neg hr]
      exact editOthers_actor_chat actor c rest s mid

theorem editAll_preserves_content (c : MsgContent) :
    ∀ (rows : List MsgRow) (s : BState) (ch : Int) (mid : Nat),
      chatContent s ch mid = some c →
      chatContent (editAll c s rows) ch mid = some c
  | [], _, _, _, h => h
  | r :: rest, s, ch, mid, h => by
    unfold editAll
    exact editAll_preserves_content c rest _ ch mid
      (chatContent_edit_same_content s r.chat_id r.message_id c ch mid h)

theorem editAll_content (c : MsgContent) :
    ∀ (rows : List MsgRow) (s : BState) (r : MsgRow),
      r ∈ rows →
      (chatContent s r.chat_id r.message_id).isSome →
      chatContent (editAll c s rows) r.chat_id r.message_id = some c
  | [], _, _, hr, _ => absurd hr (List.not_mem_nil _)
  | q :: rest, s, r, hr, hsome => by
    unfold editAll
    rcases List.mem_cons.mp hr with rfl | hr2
    · exact editAll_preserves_content c rest _ r.chat_id r.message_id
        (chatContent_edit_self s r.chat_id r.message_id c hsome)
    · exact editAll_content c rest _ r hr2
        (by rw [chatContent_edit_isSome]; exact hsome)

end BotDB

/-- C4 (amended): when an admin in the admin list presses approve, the
relational handler edits in place every stored NotificationRef copy
whose chat differs from the acting admin to the approved content, but it
skips the acting admin's own stored copy: in the actor's chat only the
pressed callback message changes, so pressing the button on a separate
review message leaves the actor's fanned-out copy stale. The `/approve`
command path, in contrast, edits every stored copy with no skip. -/
theorem c4_fanout_edit (admins : List Int) (s : BotDB.BState) (actor : Int)
    (app_id : String) (app : BotDB.BApp) (cbChat : Int) (cbMsg : Nat) (now : Nat)
    (hadm : actor ∈ admins)
    (hget : BotDB.get_application s app_id = some app) :
    (∀ r ∈ BotDB.get_application_messages s app_id, r.chat_id ≠ actor →
      (BotDB.chatContent s r.chat_id r.message_id).isSome →
      BotDB.chatContent
        (BotDB.button_handler admins s actor .approve app_id cbChat cbMsg now).1
        r.chat_id r.message_id =
        some (.approvedNotice app_id app.application_data)) ∧
    (∀ mid : Nat, ¬(actor = cbChat ∧ mid = cbMsg) →
      BotDB.chatContent
        (BotDB.button_handler admins s actor .approve app_id cbChat cbMsg now).1
        actor mid = BotDB.chatContent s actor mid) ∧
    (∀ r ∈ BotDB.get_application_messages s app_id,
      (BotDB.chatContent s r.chat_id r.message_id).isSome →
      BotDB.chatContent
        (BotDB.process_application_action admins s actor .approve app_id now)
        r.chat_id r.message_id =
        some (.approvedNotice app_id app.application_data)) := by
  refine ⟨?_, ?_, ?_⟩
  · intro r hr hne hsome
    rw [BotDB.button_approve_state admins s actor app_id cbChat cbMsg now app hadm hget]
    exact BotDB.editOthers_content actor _ _ _ r hr hne
      (by rw [BotDB.chatContent_edit_isSome]; exact hsome)
  · intro mid hne
    rw [BotDB.button_approve_state admins s actor app_id cbChat cbMsg now app hadm hget]
    rw [BotDB.editOthers_actor_chat]
    rw [BotDB.chatContent_edit_other _ cbChat cbMsg _ actor mid hne]
    rfl
  · intro r hr hsome
    rw [BotDB.command_approve_state admins s actor app_id now app hadm hget]
    have hsome1 : (BotDB.chatContent
        (BotDB.update_application_status s app_id .approved now)
        r.chat_id r.message_id).isSome := hsome
    have hr1 : r ∈ BotDB.get_application_messages
        (BotDB.update_application_status s app_id .approved now) app_id := hr
    exact BotDB.chatContent_send_preserved
      (BotDB.editAll_content _ _ _ r hr1 hsome1) actor _

/-- C4 counterexample: admin 1 approves APP-0001 from a freshly issued
review message (chat 1, message 2); the stored NotificationRef of chat 1
is message 0, which keeps the original new-application content while the
other admin's copy (chat 2, message 1) is edited to the approved text. -/
theorem c4_counterexample :
    BotDB.lookupRef BotDB.bstate3.messages "APP-0001" 1 = some 0 ∧
    BotDB.chatContent BotDB.bstate4 1 0 = some (.newApplication "APP-0001") ∧
    BotDB.chatContent BotDB.bstate4 2 1 =
      some (.approvedNotice "APP-0001" "raw application") ∧
    (BotDB.get_application BotDB.bstate4 "APP-0001").map BotDB.BApp.status =
      some .approved := by decide

/-- Witness for `c4_fanout_edit`: admin 1 approves APP-0001 pressing the
button on their own delivered copy (chat 1, message 0) in `bstate2`. -/
theorem c4_witness :
    (∀ r ∈ BotDB.get_application_messages BotDB.bstate2 "APP-0001", r.chat_id ≠ 1 →
      (BotDB.chatContent BotDB.bstate2 r.chat_id r.message_id).isSome →
      BotDB.chatContent
        (BotDB.button_handler [1, 2] BotDB.bstate2 1 .approve "APP-0001" 1 0 30).1
        r.chat_id r.message_id =
        some (.approvedNotice "APP-0001" "raw application")) ∧
    (∀ mid : Nat, ¬((1 : Int) = 1 ∧ mid = 0) →
      BotDB.chatContent
        (BotDB.button_handler [1, 2] BotDB.bstate2 1 .approve "APP-0001" 1 0 30).1
        1 mid = BotDB.chatContent BotDB.bstate2 1 mid) ∧
    (∀ r ∈ BotDB.get_application_messages BotDB.bstate2 "APP-0001",
      (BotDB.chatContent BotDB.bstate2 r.chat_id r.message_id).isSome →
      BotDB.chatContent
        (BotDB.process_application_action [1, 2] BotDB.bstate2 1 .approve "APP-0001" 30)
        r.chat_id r.message_id =
        some (.approvedNotice "APP-0001" "raw application")) :=
  c4_fanout_edit [1, 2] BotDB.bstate2 1 "APP-0001"
    ⟨"APP-0001", .pending, "raw application", "@bob", 0, 10⟩ 1 0 30
    (by decide) (by decide)



/-! ## C1: the assigned application-id sequence -/

namespace BotDB

theorem runIntakes_ids :
    ∀ (evs : List IntakeEv) (s : BState),
      (∀ e ∈ evs, burnsCounter e = false) →
      ∃ k, (runIntakes s evs).2 = (List.range' (s.counter + 1) k).map appIdFmt ∧
        (runIntakes s evs).1.counter = s.counter + k
  | [], s, _ => ⟨0, rfl, rfl⟩
  | .http d tg t :: rest, s, h => by
    have hh : runIntakes s (.http d tg t :: rest) =
        ((runIntakes (http_application_handler s d tg t).1 rest).1,
         appIdFmt (s.counter + 1) ::
           (runIntakes (http_application_handler s d tg t).1 rest).2) := by
      simp only [runIntakes, http_application_handler, get_next_application_id]
    obtain ⟨k, h1, h2⟩ := runIntakes_ids rest (http_application_handler s d tg t).1
      (fun e he => h e (List.mem_cons_of_mem _ he))
    have hc : (http_application_handler s d tg t).1.counter = s.counter + 1 := rfl
    refine ⟨k + 1, ?_, ?_⟩
    · rw [hh]
      show appIdFmt (s.counter + 1) :: _ = _
      rw [h1, hc, List.range'_succ, List.map_cons]
    · rw [hh]
      show (runIntakes (http_application_handler s d tg t).1 rest).1.counter =
        s.counter + (k + 1)
      rw [h2, hc]
      omega
  | .chat text t :: rest, s, h => by
    have hb := h _ (List.mem_cons_self _ _)
    cases hcont : pyContains text applicationMarker with
    | false =>
      have hha : handle_application s text t = (s, none) := by
        simp only [handle_application, hcont, Bool.false_eq_true, if_false]
      have hh : runIntakes s (.chat text t :: rest) = runIntakes s rest := by
        simp only [runIntakes, hha]
      rw [hh]
      exact runIntakes_ids rest s (fun e he => h e (List.mem_cons_of_mem _ he))
    | true =>
      have hsome : (extractTelegram text).isSome = true := by
        simp only [burnsCounter, hcont, Bool.true_and, Bool.not_eq_false'] at hb
        exact hb
      obtain ⟨tg, htg⟩ := Option.isSome_iff_exists.mp hsome
      have h2v : (handle_application s text t).2 = some (appIdFmt (s.counter + 1)) := by
        simp only [handle_application, get_next_application_id, hcont, if_true, htg]
      have hc1 : (handle_application s text t).1.counter = s.counter + 1 := by
        simp only [handle_application, get_next_application_id, hcont, if_true, htg]
        rfl
      have hh : runIntakes s (.chat text t :: rest) =
          ((runIntakes (handle_application s text t).1 rest).1,
           appIdFmt (s.counter + 1) ::
             (runIntakes (handle_application s text t).1 rest).2) := by
        simp only [runIntakes, h2v]
      obtain ⟨k, h1, h2⟩ := runIntakes_ids rest (handle_application s text t).1
        (fun e he => h e (List.mem_cons_of_mem _ he))
      refine ⟨k + 1, ?_, ?_⟩
      · rw [hh]
        show appIdFmt (s.counter + 1) :: _ = _
        rw [h1, hc1, List.range'_succ, List.map_cons]
      · rw [hh]
        show (runIntakes (handle_application s text t).1 rest).1.counter =
          s.counter + (k + 1)
        rw [h2, hc1]
        omega

end BotDB

namespace Flask

theorem runSubmits_ids :
    ∀ (ds : List (JObj × Nat)) (s : FState),
      ∃ k, (runSubmits s ds).2 = (List.range' s.counter k).map pyStr ∧
        (runSubmits s ds).1.counter = s.counter + k
  | [], s => ⟨0, rfl, rfl⟩
  | (d, t) :: rest, s => by
    cases hv : validateFields d required_fields with
    | bad400 f =>
      have hw : webhook_handler s d t = (s, .err400 f) := by
        unfold webhook_handler
        rw [hv]
      have hh : runSubmits s ((d, t) :: rest) = runSubmits s rest := by
        simp only [runSubmits, hw]
      rw [hh]
      exact runSubmits_ids rest s
    | exn =>
      have hw : webhook_handler s d t = (s, .err500) := by
        unfold webhook_handler
        rw [hv]
      have hh : runSubmits s ((d, t) :: rest) = runSubmits s rest := by
        simp only [runSubmits, hw]
      rw [hh]
      exact runSubmits_ids rest s
    | ok =>
      have hw : webhook_handler s d t =
          ({ s with counter := s.counter + 1,
                    pending := dictSet s.pending (pyStr s.counter)
                      (mkApplication d (pyStr s.counter) t) },
           .ok200 (pyStr s.counter)) := by
        unfold webhook_handler
        rw [hv]
      have hh : runSubmits s ((d, t) :: rest) =
          ((runSubmits (webhook_handler s d t).1 rest).1,
           pyStr s.counter :: (runSubmits (webhook_handler s d t).1 rest).2) := by
        simp only [runSubmits, hw]
      obtain ⟨k, h1, h2⟩ := runSubmits_ids rest (webhook_handler s d t).1
      have hc : (webhook_handler s d t).1.counter = s.counter + 1 := by
        rw [hw]
      refine ⟨k + 1, ?_, ?_⟩
      · rw [hh]
        show pyStr s.counter :: _ = _
        rw [h1, hc, List.range'_succ, List.map_cons]
      · rw [hh]
        show (runSubmits (webhook_handler s d t).1 rest).1.counter = s.counter + (k + 1)
        rw [h2, hc]
        omega

end Flask

/-- C1 (amended): the relational variant assigns ids APP-0001, APP-0002,
… consecutively — for every run of intake events none of which burns the
counter (a chat intake whose contact line raises IndexError increments
the counter without storing a record, leaving a gap), the accepted ids
are exactly the zero-padded range continuing from the current counter,
distinct and increasing, the first HTTP submission from the fresh state
gets "APP-0001", and it reaches status pending once the background
processor drains its queue entry. The Flask variant instead keys records
by the bare decimal counter starting at "1": its accepted ids are the
decimal range from the current counter, distinct and increasing, but not
of the form "APP-&#37;04d". -/
theorem c1_id_sequence :
    (∀ (evs : List BotDB.IntakeEv) (s : BotDB.BState),
      (∀ e ∈ evs, BotDB.burnsCounter e = false) →
      ∃ k, (BotDB.runIntakes s evs).2 =
          (List.range' (s.counter + 1) k).map appIdFmt ∧
        (BotDB.runIntakes s evs).1.counter = s.counter + k ∧
        ((BotDB.runIntakes s evs).2).Nodup) ∧
    (∀ (ds : List (Flask.JObj × Nat)) (s : Flask.FState),
      ∃ k, (Flask.runSubmits s ds).2 = (List.range' s.counter k).map pyStr ∧
        (Flask.runSubmits s ds).1.counter = s.counter + k ∧
        ((Flask.runSubmits s ds).2).Nodup) ∧
    (∀ (d tg : String) (now : Nat),
      (BotDB.http_application_handler BotDB.initB d tg now).2 =
        .success "APP-0001") ∧
    (BotDB.get_application BotDB.bstate2 "APP-0001").map BotDB.BApp.status =
      some .pending := by
  refine ⟨?_, ?_, fun d tg now => rfl, by decide⟩
  · intro evs s h
    obtain ⟨k, h1, h2⟩ := BotDB.runIntakes_ids evs s h
    refine ⟨k, h1, h2, ?_⟩
    rw [h1]
    exact (@List.nodup_range' _ _ 1 (by simp)).map appIdFmt_injective
  · intro ds s
    obtain ⟨k, h1, h2⟩ := Flask.runSubmits_ids ds s
    refine ⟨k, h1, h2, ?_⟩
    rw [h1]
    exact (@List.nodup_range' _ _ 1 (by simp)).map pyStr_injective

/-- C1 counterexample: the Flask variant's first accepted submission is
stored and answered under id "1", the bare decimal counter, not
"APP-0001". -/
theorem c1_counterexample :
    (Flask.runSubmits Flask.initState [(Flask.sampleData, 100)]).2 = ["1"] ∧
    (dictGet (Flask.runSubmits Flask.initState
      [(Flask.sampleData, 100)]).1.pending "1").isSome = true ∧
    ("1" : String) ≠ "APP-0001" := by decide

/-- Witness for `c1_id_sequence`: one HTTP intake from the fresh
relational state and one accepted Flask submission from the fresh Flask
state. -/
theorem c1_witness :
    (∃ k, (BotDB.runIntakes BotDB.initB [.http "raw application" "@bob" 0]).2 =
        (List.range' (BotDB.initB.counter + 1) k).map appIdFmt ∧
      (BotDB.runIntakes BotDB.initB [.http "raw application" "@bob" 0]).1.counter =
        BotDB.initB.counter + k ∧
      ((BotDB.runIntakes BotDB.initB [.http "raw application" "@bob" 0]).2).Nodup) ∧
    (∃ k, (Flask.runSubmits Flask.initState [(Flask.sampleData, 100)]).2 =
        (List.range' Flask.initState.counter k).map pyStr ∧
      (Flask.runSubmits Flask.initState [(Flask.sampleData, 100)]).1.counter =
        Flask.initState.counter + k ∧
      ((Flask.runSubmits Flask.initState [(Flask.sampleData, 100)]).2).Nodup) :=
  ⟨c1_id_sequence.1 [.http "raw application" "@bob" 0] BotDB.initB (by decide),
   c1_id_sequence.2.1 [(Flask.sampleData, 100)] Flask.initState⟩


end VexeraDubbing
